import Mathlib

/-!
Verification development for the PII Shield detection/masking pipeline.

The Python sources are shallowly embedded:
* text is modelled as `List Char` (ASCII fragment of Python `str`),
* Python floats carrying confidence scores are modelled as rationals `ℚ`
  (only their ordering is relevant to the properties below),
* regular-expression scanning (`re.finditer`) is an external library the
  detector consumes; each compiled pattern's match spans are an input of the
  embedded detector, and `match.group(0)` is by the `re` API the slice
  `text[start:end]`,
* `hashlib.sha256(...).hexdigest()` is an external pure library function,
  passed as an explicit function argument `sha256hex`,
* mutable state (the masker's token counter) is passed explicitly,
* Python operations that can raise (`list[i]`, `int(...)` outside any
  `try`) have an `Except`-returning variant used for the totality claim.
-/

namespace PiiShield

/-- Characters Python's `\s` / `str.split()` treat as whitespace (ASCII). -/
def isPyWs (c : Char) : Bool :=
  c = ' ' || c = '\t' || c = '\n' || c = '\r' || c = '\x0b' || c = '\x0c'

/-- Numeric value of an ASCII digit character. -/
def digitVal (c : Char) : Nat := c.toNat - '0'.toNat

/-- Value of a string of ASCII digits. -/
def digitsToNat (s : List Char) : Nat := s.foldl (fun a c => a * 10 + digitVal c) 0

/-- Python `str.strip()` (no argument): remove leading/trailing whitespace. -/
def stripWs (s : List Char) : List Char :=
  ((s.dropWhile isPyWs).reverse.dropWhile isPyWs).reverse

/-- Python `str.strip(cs)`: remove leading/trailing characters in `cs`. -/
def stripChars (cs : List Char) (s : List Char) : List Char :=
  ((s.dropWhile (cs.contains ·)).reverse.dropWhile (cs.contains ·)).reverse

/-- Python `int(s)` on ASCII text: strip whitespace, optional sign, digits;
`none` models `ValueError`. -/
def pyInt (s : List Char) : Option Int :=
  match stripWs s with
  | '+' :: rest =>
      if !rest.isEmpty && rest.all Char.isDigit then some (digitsToNat rest) else none
  | '-' :: rest =>
      if !rest.isEmpty && rest.all Char.isDigit then some (-(digitsToNat rest : Int)) else none
  | rest =>
      if !rest.isEmpty && rest.all Char.isDigit then some (digitsToNat rest) else none

/-- `Except` variant of `pyInt`: an uncaught `int(...)` call site. -/
def pyIntE (s : List Char) : Except String Int :=
  match pyInt s with
  | some n => .ok n
  | none => .error "ValueError"

/-- Python `text[a:b]` (for the non-negative indices arising here). -/
def slice (s : List Char) (a b : Nat) : List Char := (s.drop a).take (b - a)

/-- Python `str.split()` — split on whitespace runs, dropping empty pieces. -/
def pySplitWs (s : List Char) : List (List Char) :=
  (s.splitOnP isPyWs).filter (fun w => !w.isEmpty)

/-- Python `str.lower()` (ASCII). -/
def lowerStr (s : List Char) : List Char := s.map Char.toLower

/-- Python `hay.find(needle)`: index of first occurrence (`none` for `-1`). -/
def strFind : List Char → List Char → Option Nat
  | hay, needle =>
    if needle.isPrefixOf hay then some 0
    else
      match hay with
      | [] => none
      | _ :: t => (strFind t needle).map (· + 1)

/-- Python `needle in hay` substring containment. -/
def containsSub (hay needle : List Char) : Bool := (strFind hay needle).isSome

/-- Python `s.isupper()` for a single character. -/
def pyIsUpperChar (c : Char) : Bool := c.isUpper

/-- Python `s.islower()` (ASCII): some cased character, and no uppercase one. -/
def pyIsLowerStr (s : List Char) : Bool :=
  s.any Char.isAlpha && s.all (fun c => !c.isUpper)

/-- Zero-pad a decimal rendering to 4 characters, as Python's `f"{n:04d}"`. -/
def pad4 (n : Nat) : List Char :=
  let s := (toString n).data
  List.replicate (4 - s.length) '0' ++ s

/-! ## patterns.py: `PIIType`, `PIIPattern`, `PATTERN_REGISTRY`, word lists -/

/-- `patterns.PIIType` — the closed enumeration of supported PII types. -/
inductive PIIType where
  | CREDIT_CARD | SSN | EMAIL | PHONE | PERSON_NAME | ADDRESS
  | IP_ADDRESS | DATE_OF_BIRTH | PASSPORT | DRIVER_LICENSE | BANK_ACCOUNT | TAX_ID
deriving DecidableEq, Repr

/-- The `.value` string of each `PIIType` member. -/
def PIIType.value : PIIType → List Char
  | .CREDIT_CARD => "CREDIT_CARD".data
  | .SSN => "SSN".data
  | .EMAIL => "EMAIL".data
  | .PHONE => "PHONE".data
  | .PERSON_NAME => "PERSON_NAME".data
  | .ADDRESS => "ADDRESS".data
  | .IP_ADDRESS => "IP_ADDRESS".data
  | .DATE_OF_BIRTH => "DATE_OF_BIRTH".data
  | .PASSPORT => "PASSPORT".data
  | .DRIVER_LICENSE => "DRIVER_LICENSE".data
  | .BANK_ACCOUNT => "BANK_ACCOUNT".data
  | .TAX_ID => "TAX_ID".data

/-- Iteration order of `for pii_type in PIIType` (definition order). -/
def PIITypeList : List PIIType :=
  [.CREDIT_CARD, .SSN, .EMAIL, .PHONE, .PERSON_NAME, .ADDRESS,
   .IP_ADDRESS, .DATE_OF_BIRTH, .PASSPORT, .DRIVER_LICENSE, .BANK_ACCOUNT, .TAX_ID]

/-- `patterns.PIIPattern` metadata (the regex source itself lives in the
external `re` library; the pattern's match spans are detector inputs). -/
structure PIIPattern where
  piiType : PIIType
  confidence : ℚ
  description : String
  requiresValidation : Bool
deriving DecidableEq, Repr

/-- `PATTERN_REGISTRY._patterns` — the 17 entries in source order. -/
def patternRegistry : List PIIPattern :=
  [⟨.CREDIT_CARD, 0.95, "Visa credit card", true⟩,
   ⟨.CREDIT_CARD, 0.95, "Mastercard", true⟩,
   ⟨.CREDIT_CARD, 0.95, "American Express", true⟩,
   ⟨.CREDIT_CARD, 0.95, "Discover card", true⟩,
   ⟨.SSN, 0.98, "Social Security Number with separators", true⟩,
   ⟨.SSN, 0.98, "Social Security Number without separators", true⟩,
   ⟨.EMAIL, 0.99, "Email address", false⟩,
   ⟨.PHONE, 0.85, "US phone number", false⟩,
   ⟨.PHONE, 0.80, "International phone number", false⟩,
   ⟨.IP_ADDRESS, 0.90, "IPv4 address", false⟩,
   ⟨.DATE_OF_BIRTH, 0.75, "Date of birth MM/DD/YYYY", false⟩,
   ⟨.DATE_OF_BIRTH, 0.75, "Date of birth DD/MM/YYYY", false⟩,
   ⟨.PASSPORT, 0.70, "US Passport number", false⟩,
   ⟨.DRIVER_LICENSE, 0.65, "Driver license (CA, TX, etc.)", false⟩,
   ⟨.DRIVER_LICENSE, 0.60, "Driver license (FL, etc.)", false⟩,
   ⟨.BANK_ACCOUNT, 0.50, "Bank account number", false⟩,
   ⟨.TAX_ID, 0.75, "Tax identification number", false⟩]

/-- `NamePatterns.PREFIXES`. -/
def namePrefixes : List String :=
  ["mr", "mrs", "ms", "miss", "dr", "prof", "rev",
   "hon", "sir", "lord", "lady", "capt", "col", "gen",
   "lt", "sgt", "cpl", "pvt", "adm", "cmdr", "maj"]

/-- `NamePatterns.SUFFIXES`. -/
def nameSuffixes : List String :=
  ["jr", "sr", "ii", "iii", "iv", "v", "esq", "md", "phd",
   "dds", "jd", "cpa", "rn", "dvm", "do", "od", "pharmd"]

/-- `NamePatterns.COMMON_FIRST_NAMES`. -/
def commonFirstNames : List String :=
  ["james", "john", "robert", "michael", "william", "david",
   "richard", "joseph", "thomas", "charles", "christopher", "daniel",
   "matthew", "anthony", "mark", "donald", "steven", "paul",
   "andrew", "joshua", "kenneth", "kevin", "brian", "george",
   "edward", "ronald", "timothy", "jason", "jeffrey", "ryan",
   "mary", "patricia", "jennifer", "linda", "barbara", "elizabeth",
   "susan", "jessica", "sarah", "karen", "nancy", "lisa",
   "betty", "margaret", "sandra", "ashley", "kimberly", "emily",
   "donna", "michelle", "dorothy", "carol", "amanda", "melissa",
   "deborah", "stephanie", "rebecca", "sharon", "laura", "cynthia",
   "kathleen", "amy", "angela", "shirley", "anna", "brenda",
   "pamela", "emma", "nicole", "helen", "samantha", "katherine"]

/-- Membership of a word (as `List Char`) in one of the curated string sets. -/
def inWordSet (ws : List String) (w : List Char) : Bool :=
  ws.contains (String.mk w)

/-! ## validator.py: `PIIValidator` -/

/-- `re.sub(r'[\s\-]', '', s)` — drop whitespace and dashes. -/
def removeWsDash (s : List Char) : List Char :=
  s.filter (fun c => !(isPyWs c || c = '-'))

/-- One step of the Luhn checksum loop (`i` is the index from the right). -/
def luhnDigit (i : Nat) (d : Nat) : Nat :=
  if i % 2 = 1 then
    let dd := d * 2
    if dd > 9 then dd - 9 else dd
  else d

/-- `for i, digit in enumerate(reversed(digits)): ...` accumulated checksum. -/
def luhnChecksumGo : Nat → List Nat → Nat
  | _, [] => 0
  | i, d :: rest => luhnDigit i d + luhnChecksumGo (i + 1) rest

/-- `PIIValidator.validate_credit_card` — Luhn validation. -/
def validateCreditCard (cardNumber : List Char) : Bool :=
  let digits := (cardNumber.filter Char.isDigit).map digitVal
  if digits.length < 13 || digits.length > 19 then false
  else luhnChecksumGo 0 digits.reverse % 10 = 0

/-- `PIIValidator.validate_ssn`. -/
def validateSsn (ssn : List Char) : Bool :=
  let cleanSsn := removeWsDash ssn
  if cleanSsn.length ≠ 9 || !cleanSsn.all Char.isDigit then false
  else
    let area := ((pyInt (cleanSsn.take 3)).getD 0).toNat
    let grp := ((pyInt (slice cleanSsn 3 5)).getD 0).toNat
    let serial := ((pyInt (cleanSsn.drop 5)).getD 0).toNat
    if area = 0 || area = 666 || area ≥ 900 then false
    else if grp = 0 || serial = 0 then false
    else if 734 ≤ area && area ≤ 749 then false
    else true

/-- `PIIValidator.validate_email`. -/
def validateEmail (email : List Char) : Bool :=
  if email.length > 254 then false
  else
    match email.splitOnP (· = '@') with
    | [loc, domain] =>
      if loc.length = 0 || loc.length > 64 then false
      else if domain.length = 0 || domain.length > 253 then false
      else if !domain.contains '.' then false
      else if (domain.splitOnP (· = '.')).any (fun part => part.length = 0) then false
      else true
    | _ => false

/-- `PIIValidator.validate_phone`. -/
def validatePhone (phone : List Char) : Bool :=
  let digits := phone.filter Char.isDigit
  if digits.length = 10 then
    let areaCode := ((pyInt (digits.take 3)).getD 0).toNat
    if areaCode < 200 || areaCode = 911 || areaCode = 988 then false else true
  else if 11 ≤ digits.length && digits.length ≤ 15 then true
  else false

/-- `PIIValidator.validate_ip_address`. -/
def validateIpAddress (ip : List Char) : Bool :=
  let parts := ip.splitOnP (· = '.')
  if parts.length ≠ 4 then false
  else parts.all fun part =>
    match pyInt part with
    | some num => !(num < 0 || num > 255)
    | none => false

/-- `PIIValidator.validate_date_of_birth`. -/
def validateDateOfBirth (dob : List Char) : Bool :=
  let parts := dob.splitOnP (fun c => c = '/' || c = '-')
  if parts.length ≠ 3 then false
  else
    match parts.find? (fun part => part.length = 4) with
    | none => false
    | some yearPart =>
      match pyInt yearPart with
      | none => false  -- int(part) raised, caught by the except
      | some year =>
        if year < 1900 || year > 2025 then false
        else parts.all fun part =>
          if part.length ≤ 2 then
            match pyInt part with
            | none => false  -- int(part) raised, caught by the except
            | some val => !(val < 1 || val > 31)
          else true

/-- `PIIValidator.is_valid_passport` — `re.match(r'^[A-Z]{1,2}\d{6,9}$', s)`
(`$` also matches just before one trailing newline). -/
def isValidPassport (pp : List Char) : Bool :=
  let body := if pp.getLast? = some '\n' then pp.dropLast else pp
  let letters := body.takeWhile Char.isUpper
  let rest := body.drop letters.length
  (letters.length = 1 || letters.length = 2) &&
    rest.all Char.isDigit && 6 ≤ rest.length && rest.length ≤ 9

/-! ## validator.py: `ContextValidator` -/

/-- `ContextValidator.is_likely_name_context`: a 20-character window on each
side must contain no negative keyword.  (The positive-keyword check is
computed in the source but does not influence the result.) -/
def isLikelyNameContext (text : List Char) (start stop : Nat) : Bool :=
  let before := lowerStr (slice text (start - 20) start)
  let after := lowerStr (slice text stop (min text.length (stop + 20)))
  let context := before ++ [' '] ++ after
  let negativeKeywords : List String :=
    ["file", "folder", "document", "system", "server",
     "application", "program", "code", "variable"]
  let hasNegative := negativeKeywords.any (fun kw => containsSub context kw.data)
  if hasNegative then false else true

/-- `ContextValidator.is_likely_address_context`: a 30-character window on
each side must contain at least one address keyword. -/
def isLikelyAddressContext (text : List Char) (start stop : Nat) : Bool :=
  let before := lowerStr (slice text (start - 30) start)
  let after := lowerStr (slice text stop (min text.length (stop + 30)))
  let context := before ++ [' '] ++ after
  let addressKeywords : List String :=
    ["address", "located", "live", "office", "building",
     "suite", "floor", "unit", "apt", "apartment"]
  addressKeywords.any (fun kw => containsSub context kw.data)

/-! ## masking.py: `MaskingStrategy`, `PIIMasker`, `MaskingConfig` -/

/-- `masking.MaskingStrategy` — the closed strategy enumeration. -/
inductive MaskingStrategy where
  | FULL | PARTIAL | REDACT | HASH | TOKENIZE
deriving DecidableEq, Repr

/-- `masking.PIIMasker` instance state: strategy default and token counter. -/
structure Masker where
  defaultStrategy : MaskingStrategy
  tokenCounter : Nat
deriving DecidableEq, Repr

/-- `PIIMasker()` — default strategy `PARTIAL`, counter 0. -/
def Masker.init : Masker := ⟨.PARTIAL, 0⟩

/-- `PIIMasker._mask_full` — per-type placeholder. -/
def maskFull (_value : List Char) (piiType : PIIType) : List Char :=
  match piiType with
  | .CREDIT_CARD => "[CREDIT_CARD]".data
  | .SSN => "[SSN]".data
  | .EMAIL => "[EMAIL]".data
  | .PHONE => "[PHONE]".data
  | .PERSON_NAME => "[NAME]".data
  | .ADDRESS => "[ADDRESS]".data
  | .IP_ADDRESS => "[IP_ADDRESS]".data
  | .DATE_OF_BIRTH => "[DATE_OF_BIRTH]".data
  | .PASSPORT => "[PASSPORT]".data
  | .DRIVER_LICENSE => "[DRIVER_LICENSE]".data
  | .BANK_ACCOUNT => "[BANK_ACCOUNT]".data
  | .TAX_ID => "[TAX_ID]".data

/-- `PIIMasker._mask_credit_card` — keep only the last 4 digits. -/
def maskCreditCard (card : List Char) : List Char :=
  let clean := removeWsDash card
  if clean.length < 4 then "****".data
  else "****-****-****-".data ++ clean.drop (clean.length - 4)

/-- `PIIMasker._mask_ssn`. -/
def maskSsn (ssn : List Char) : List Char :=
  let clean := removeWsDash ssn
  if clean.length < 4 then "***-**-****".data
  else "***-**-".data ++ clean.drop (clean.length - 4)

/-- `PIIMasker._mask_email` — mask the username, keep the domain. -/
def maskEmail (email : List Char) : List Char :=
  match email.splitOnP (· = '@') with
  | [username, domain] =>
    let maskedUser :=
      if username.length ≤ 2 then "***".data
      else if username.length ≤ 4 then username.take 1 ++ "***".data
      else username.take 1 ++ "***".data ++ [username.getLastD ' ']
    maskedUser ++ ['@'] ++ domain
  | _ => "[EMAIL]".data

/-- `PIIMasker._mask_phone`. -/
def maskPhone (phone : List Char) : List Char :=
  let digits := phone.filter Char.isDigit
  if digits.length < 4 then "[PHONE]".data
  else "***-***-".data ++ digits.drop (digits.length - 4)

/-- `PIIMasker._mask_name` — each whitespace-separated token becomes
`<upper first letter>***` (the title branch produces the same string). -/
def maskName (name : List Char) : List Char :=
  let parts := pySplitWs name
  if parts.length = 0 then "[NAME]".data
  else
    let maskedParts := parts.filterMap fun part =>
      if part.length > 0 then some ((part.take 1).map Char.toUpper ++ "***".data)
      else none
    List.intercalate [' '] maskedParts

/-- `PIIMasker._mask_bank_account`. -/
def maskBankAccount (account : List Char) : List Char :=
  let clean := account.filter Char.isDigit
  if clean.length < 4 then "****".data
  else "****".data ++ clean.drop (clean.length - 4)

/-- `PIIMasker._mask_partial` — type-specific reveal dispatch. -/
def maskPartialDispatch (value : List Char) (piiType : PIIType) : List Char :=
  match piiType with
  | .CREDIT_CARD => maskCreditCard value
  | .SSN => maskSsn value
  | .EMAIL => maskEmail value
  | .PHONE => maskPhone value
  | .PERSON_NAME => maskName value
  | .BANK_ACCOUNT => maskBankAccount value
  | _ => maskFull value piiType

/-- `PIIMasker._mask_redact`. -/
def maskRedact (value : List Char) : List Char := List.replicate value.length '*'

/-- `PIIMasker._mask_hash` — `sha256hex` is the external `hashlib` digest. -/
def maskHash (sha256hex : List Char → List Char) (value : List Char)
    (piiType : PIIType) : List Char :=
  ['['] ++ piiType.value ++ [':'] ++ (sha256hex value).take 12 ++ [']']

/-- `PIIMasker._mask_tokenize` — increments the instance token counter. -/
def maskTokenize (mk : Masker) (_value : List Char) (piiType : PIIType) :
    List Char × Masker :=
  let mk' : Masker := { mk with tokenCounter := mk.tokenCounter + 1 }
  (['['] ++ piiType.value ++ "_TOKEN_".data ++ pad4 mk'.tokenCounter ++ [']'], mk')

/-- `PIIMasker.mask` — strategy dispatch; `none` means "use the default". -/
def Masker.mask (sha256hex : List Char → List Char) (mk : Masker)
    (value : List Char) (piiType : PIIType) (strategy? : Option MaskingStrategy) :
    List Char × Masker :=
  let strategy := strategy?.getD mk.defaultStrategy
  match strategy with
  | .FULL => (maskFull value piiType, mk)
  | .PARTIAL => (maskPartialDispatch value piiType, mk)
  | .REDACT => (maskRedact value, mk)
  | .HASH => (maskHash sha256hex value piiType, mk)
  | .TOKENIZE => maskTokenize mk value piiType

/-- `masking.MaskingConfig.strategies` as an association list (Python dict). -/
abbrev MaskingConfig := List (PIIType × MaskingStrategy)

/-- `MaskingConfig()` — the default per-type strategies. -/
def MaskingConfig.init : MaskingConfig :=
  [(.CREDIT_CARD, .PARTIAL), (.SSN, .PARTIAL), (.EMAIL, .PARTIAL),
   (.PHONE, .PARTIAL), (.PERSON_NAME, .PARTIAL), (.ADDRESS, .FULL),
   (.IP_ADDRESS, .FULL), (.DATE_OF_BIRTH, .FULL), (.PASSPORT, .FULL),
   (.DRIVER_LICENSE, .FULL), (.BANK_ACCOUNT, .PARTIAL), (.TAX_ID, .FULL)]

/-- `MaskingConfig.get_strategy` — `self.strategies.get(pii_type, FULL)`. -/
def MaskingConfig.getStrategy (cfg : MaskingConfig) (piiType : PIIType) :
    MaskingStrategy :=
  match cfg.find? (fun p => p.1 = piiType) with
  | some p => p.2
  | none => .FULL

/-- `MaskingConfig.set_strategy` — dict key update. -/
def MaskingConfig.setStrategy (cfg : MaskingConfig) (piiType : PIIType)
    (strategy : MaskingStrategy) : MaskingConfig :=
  if cfg.any (fun p => p.1 = piiType) then
    cfg.map (fun p => if p.1 = piiType then (piiType, strategy) else p)
  else cfg ++ [(piiType, strategy)]

/-- `MaskingConfig.set_all_strategies` — `for pii_type in PIIType: ...`. -/
def MaskingConfig.setAllStrategies (cfg : MaskingConfig)
    (strategy : MaskingStrategy) : MaskingConfig :=
  PIITypeList.foldl (fun c t => c.setStrategy t strategy) cfg

/-! ## utils.py: `PIIMatch`, `TextProcessor`, `OverlapResolver`,
`ConfidenceCalculator` -/

/-- `utils.PIIMatch` (the Python `end` offset is named `stop` here). -/
structure PIIMatch where
  piiType : List Char
  value : List Char
  start : Nat
  stop : Nat
  confidence : ℚ
  maskedValue : List Char
  context : Option (List Char) := none
deriving DecidableEq, Repr

/-- `TextProcessor.is_capitalized_word`. -/
def isCapitalizedWord (word : List Char) : Bool :=
  match word with
  | [] => false
  | [c] => pyIsUpperChar c
  | c :: rest => c.isUpper && pyIsLowerStr rest

/-- `OverlapResolver._has_overlap` — half-open interval intersection. -/
def hasOverlap (m1 m2 : PIIMatch) : Bool :=
  m1.start < m2.stop && m1.stop > m2.start

/-- The body of the `for match in sorted_matches` loop of
`OverlapResolver.resolve_overlaps`: scan the accepted list for the first
overlapping entry; replace it when the candidate's confidence is strictly
higher, drop the candidate otherwise; append when nothing overlaps. -/
def resolveInsert (m : PIIMatch) : List PIIMatch → List PIIMatch
  | [] => [m]
  | x :: rest =>
    if hasOverlap m x then
      if m.confidence > x.confidence then rest ++ [m] else x :: rest
    else x :: resolveInsert m rest

/-- `sorted(matches, key=lambda x: (x.start, -x.confidence))` comparison. -/
def startConfLe (a b : PIIMatch) : Bool :=
  a.start < b.start || (a.start = b.start && b.confidence ≤ a.confidence)

/-- `sorted(result, key=lambda x: x.start)` comparison. -/
def startLe (a b : PIIMatch) : Bool := a.start ≤ b.start

/-- `OverlapResolver.resolve_overlaps` (Python `sorted` is a stable merge
sort, modelled by `List.mergeSort`). -/
def resolveOverlaps (ms : List PIIMatch) : List PIIMatch :=
  if ms.isEmpty then []
  else
    let sortedMatches := ms.mergeSort startConfLe
    let result := sortedMatches.foldl (fun acc m => resolveInsert m acc) []
    result.mergeSort startLe

/-- `ConfidenceCalculator.adjust_confidence`. -/
def adjustConfidence (baseConfidence : ℚ) (contextMatch : Bool)
    (validationPassed : Bool) (lengthAppropriate : Bool) : ℚ :=
  let c1 := if contextMatch then min 1 (baseConfidence + 0.1) else baseConfidence
  let c2 := if !validationPassed then c1 * 0.5 else c1
  let c3 := if !lengthAppropriate then c2 * 0.7 else c2
  max 0 (min 1 c3)

/-! ## detector.py: `PIIDetector` -/

/-- `PIIDetector` instance state and configuration flags. -/
structure Detector where
  masker : Masker
  maskingConfig : MaskingConfig
  enableContextValidation : Bool
  enableStrictValidation : Bool
deriving DecidableEq, Repr

/-- `PIIDetector(...)` constructor (statistics collection omitted: it only
feeds the optional counters, never the returned matches). -/
def Detector.init (enableContextValidation enableStrictValidation : Bool) :
    Detector :=
  ⟨Masker.init, MaskingConfig.init, enableContextValidation, enableStrictValidation⟩

/-- `PIIDetector._validate_match` — validator dispatch per type. -/
def validateMatch (value : List Char) (piiType : PIIType) : Bool :=
  match piiType with
  | .CREDIT_CARD => validateCreditCard value
  | .SSN => validateSsn value
  | .EMAIL => validateEmail value
  | .PHONE => validatePhone value
  | .IP_ADDRESS => validateIpAddress value
  | .DATE_OF_BIRTH => validateDateOfBirth value
  | .PASSPORT => isValidPassport value
  | _ => true

/-- `PIIDetector._calculate_confidence`. -/
def calculateConfidence (d : Detector) (text value : List Char)
    (start stop : Nat) (piiType : PIIType) (baseConfidence : ℚ)
    (validationPassed : Bool) : ℚ :=
  let contextMatch :=
    if d.enableContextValidation then
      match piiType with
      | .PERSON_NAME => isLikelyNameContext text start stop
      | .ADDRESS => isLikelyAddressContext text start stop
      | _ => false
    else false
  let lengthAppropriate :=
    match piiType with
    | .CREDIT_CARD =>
      let cleanValue := removeWsDash value
      13 ≤ cleanValue.length && cleanValue.length ≤ 19
    | .SSN => (removeWsDash value).length = 9
    | _ => true
  adjustConfidence baseConfidence contextMatch validationPassed lengthAppropriate

/-- The `pii_types and pattern.pii_type not in pii_types` skip test of
`_detect_pattern_based` (an empty filter list is falsy, so nothing is
skipped). -/
def skipType (piiTypes : Option (List PIIType)) (t : PIIType) : Bool :=
  match piiTypes with
  | none => false
  | some l => !l.isEmpty && !l.contains t

/-- Inner loop of `_detect_pattern_based` for one compiled pattern: its
`finditer` spans, each giving `value = match.group(0) = text[start:end]`. -/
def patternSpanLoop (sha256hex : List Char → List Char) (d : Detector)
    (text : List Char) (pd : PIIPattern) (spans : List (Nat × Nat))
    (acc : List PIIMatch × Masker) : List PIIMatch × Masker :=
  spans.foldl
    (fun acc sp =>
      let value := slice text sp.1 sp.2
      let isValid :=
        if pd.requiresValidation && d.enableStrictValidation then
          validateMatch value pd.piiType
        else true
      if !isValid then acc
      else
        let confidence :=
          calculateConfidence d text value sp.1 sp.2 pd.piiType pd.confidence isValid
        let strategy := d.maskingConfig.getStrategy pd.piiType
        let mres := acc.2.mask sha256hex value pd.piiType (some strategy)
        (acc.1 ++ [⟨pd.piiType.value, value, sp.1, sp.2, confidence, mres.1, none⟩],
         mres.2))
    acc

/-- `PIIDetector._detect_pattern_based`; `spans i` is the `finditer` result
of the `i`-th registry pattern on `text`. -/
def detectPatternBased (sha256hex : List Char → List Char) (d : Detector)
    (text : List Char) (piiTypes : Option (List PIIType))
    (spans : Nat → List (Nat × Nat)) : List PIIMatch × Masker :=
  (patternRegistry.enum).foldl
    (fun acc ip =>
      if skipType piiTypes ip.2.piiType then acc
      else patternSpanLoop sha256hex d text ip.2 (spans ip.1) acc)
    ([], d.masker)

/-- The punctuation set of `word.strip('.,!?;:()[]\x7b\x7d')` in the name
detector (`\x7b`/`\x7d` are the brace characters). -/
def puncts : List Char :=
  ['.', ',', '!', '?', ';', ':', '(', ')', '[', ']', '\x7b', '\x7d']

/-- Loop of `PIIDetector._extract_name_sequence`: consume further tokens
while each is capitalized or a name suffix; at most 3 tokens
(`i < start_idx + 4` with `i` starting at `start_idx + 1`), so fuel 3 is
exact. -/
def extractNameSequenceGo (words : List (List Char)) (startIdx : Nat) :
    Nat → Nat → List (List Char) × Nat
  | 0, i => ([], i)
  | fuel + 1, i =>
    if i < words.length && i < startIdx + 4 then
      let word := stripChars puncts (words.getD i [])
      let wordLower := lowerStr word
      if isCapitalizedWord word || inWordSet nameSuffixes wordLower then
        let r := extractNameSequenceGo words startIdx fuel (i + 1)
        (words.getD i [] :: r.1, r.2)
      else ([], i)
    else ([], i)

/-- `PIIDetector._extract_name_sequence`. -/
def extractNameSequence (words : List (List Char)) (startIdx : Nat) :
    List (List Char) × Nat :=
  let r := extractNameSequenceGo words startIdx 3 (startIdx + 1)
  (words.getD startIdx [] :: r.1, r.2)

/-- One emitted candidate of `_detect_names` once a joined name is in hand:
locate it by `text.find`, score it by context, mask it with the masker's
default strategy. -/
def nameCandidate (sha256hex : List Char → List Char) (d : Detector)
    (text fullName : List Char) (confCtx confNoCtx : ℚ) (mk : Masker) :
    List PIIMatch × Masker :=
  match strFind text fullName with
  | some startPos =>
    let contextValid :=
      if d.enableContextValidation then
        isLikelyNameContext text startPos (startPos + fullName.length)
      else true
    let confidence := if contextValid then confCtx else confNoCtx
    let mres := mk.mask sha256hex fullName .PERSON_NAME none
    ([⟨PIIType.PERSON_NAME.value, fullName, startPos, startPos + fullName.length,
       confidence, mres.1, none⟩], mres.2)
  | none => ([], mk)

/-- The `while i < len(words)` loop of `PIIDetector._detect_names`.  The
cursor `i` advances by at least one per iteration, so fuel `words.length`
runs the loop to completion. -/
def detectNamesGo (sha256hex : List Char → List Char) (d : Detector)
    (text : List Char) (words : List (List Char)) :
    Nat → Nat → Masker → List PIIMatch × Masker
  | 0, _, mk => ([], mk)
  | fuel + 1, i, mk =>
    if i < words.length then
      let word := stripChars puncts (words.getD i [])
      let wordLower := lowerStr word
      if inWordSet namePrefixes wordLower && i + 1 < words.length then
        let ext := extractNameSequence words i
        let em :=
          if !ext.1.isEmpty && ext.1.length ≥ 2 then
            nameCandidate sha256hex d text (List.intercalate [' '] ext.1)
              0.85 0.70 mk
          else ([], mk)
        let tail := detectNamesGo sha256hex d text words fuel ext.2 em.2
        (em.1 ++ tail.1, tail.2)
      else if inWordSet commonFirstNames wordLower && i + 1 < words.length then
        let nextWord := stripChars puncts (words.getD (i + 1) [])
        let em :=
          if isCapitalizedWord nextWord && nextWord.length > 2 then
            nameCandidate sha256hex d text
              (words.getD i [] ++ [' '] ++ words.getD (i + 1) []) 0.75 0.60 mk
          else ([], mk)
        let tail := detectNamesGo sha256hex d text words fuel (i + 2) em.2
        (em.1 ++ tail.1, tail.2)
      else detectNamesGo sha256hex d text words fuel (i + 1) mk
    else ([], mk)

/-- `PIIDetector._detect_names`. -/
def detectNames (sha256hex : List Char → List Char) (d : Detector)
    (text : List Char) (mk : Masker) : List PIIMatch × Masker :=
  let words := pySplitWs text
  detectNamesGo sha256hex d text words words.length 0 mk

/-- `PIIDetector._detect_addresses`; `spans` is the `finditer` result of the
interpolated street-address regex on `text`. -/
def detectAddresses (sha256hex : List Char → List Char) (d : Detector)
    (text : List Char) (spans : List (Nat × Nat)) (mk : Masker) :
    List PIIMatch × Masker :=
  spans.foldl
    (fun acc sp =>
      let address := slice text sp.1 sp.2
      let contextValid :=
        if d.enableContextValidation then isLikelyAddressContext text sp.1 sp.2
        else true
      let confidence : ℚ := if contextValid then 0.80 else 0.65
      let mres := acc.2.mask sha256hex address .ADDRESS none
      (acc.1 ++ [⟨PIIType.ADDRESS.value, address, sp.1, sp.2, confidence, mres.1, none⟩],
       mres.2))
    ([], mk)

/-- `pii_types is None or t in pii_types`. -/
def typeEnabled (piiTypes : Option (List PIIType)) (t : PIIType) : Bool :=
  match piiTypes with
  | none => true
  | some l => l.contains t

/-- The candidate-generation phase of `PIIDetector.detect_all` (everything
before threshold filtering), returning `all_matches` and the masker state. -/
def detectAllCandidates (sha256hex : List Char → List Char) (d : Detector)
    (text : List Char) (piiTypes : Option (List PIIType))
    (patternSpans : Nat → List (Nat × Nat)) (addressSpans : List (Nat × Nat)) :
    List PIIMatch × Masker :=
  let pres := detectPatternBased sha256hex d text piiTypes patternSpans
  let nres :=
    if typeEnabled piiTypes .PERSON_NAME then detectNames sha256hex d text pres.2
    else ([], pres.2)
  let ares :=
    if typeEnabled piiTypes .ADDRESS then
      detectAddresses sha256hex d text addressSpans nres.2
    else ([], nres.2)
  (pres.1 ++ nres.1 ++ ares.1, ares.2)

/-- `PIIDetector.detect_all` — scan, filter by confidence, resolve overlaps;
returns the matches and the detector (whose masker state may have advanced). -/
def detectAll (sha256hex : List Char → List Char) (d : Detector)
    (text : List Char) (confidenceThreshold : ℚ)
    (piiTypes : Option (List PIIType)) (patternSpans : Nat → List (Nat × Nat))
    (addressSpans : List (Nat × Nat)) : List PIIMatch × Detector :=
  let cres :=
    detectAllCandidates sha256hex d text piiTypes patternSpans addressSpans
  let filteredMatches :=
    cres.1.filter (fun m => confidenceThreshold ≤ m.confidence)
  (resolveOverlaps filteredMatches, { d with masker := cres.2 })

/-- `PIIDetector.mask_text` — replace spans in descending `start` order
(Python's `sorted(..., reverse=True)` is the stable descending sort). -/
def maskText (sha256hex : List Char → List Char) (d : Detector)
    (text : List Char) (ms? : Option (List PIIMatch))
    (confidenceThreshold : ℚ) (patternSpans : Nat → List (Nat × Nat))
    (addressSpans : List (Nat × Nat)) : List Char × Detector :=
  let dres :=
    match ms? with
    | some ms => (ms, d)
    | none =>
      detectAll sha256hex d text confidenceThreshold none patternSpans addressSpans
  if dres.1.isEmpty then (text, dres.2)
  else
    let sortedMs := dres.1.mergeSort (fun a b => b.start ≤ a.start)
    (sortedMs.foldl
       (fun res m => res.take m.start ++ m.maskedValue ++ res.drop m.stop) text,
     dres.2)

/-- `PIIDetector.set_masking_strategy`. -/
def Detector.setMaskingStrategy (d : Detector) (piiType : PIIType)
    (strategy : MaskingStrategy) : Detector :=
  { d with maskingConfig := d.maskingConfig.setStrategy piiType strategy }

/-- `PIIDetector.set_all_masking_strategies`. -/
def Detector.setAllMaskingStrategies (d : Detector)
    (strategy : MaskingStrategy) : Detector :=
  { d with maskingConfig := d.maskingConfig.setAllStrategies strategy }

/-! ## Exception-aware variants

Python raises `IndexError` on out-of-range `list[i]` / `str[i]` and
`ValueError` on failed `int(...)`; where the source performs these outside
any `try`, the variants below return `Except`.  The totality claim states
that they always return `.ok`. -/

/-- Checked indexing — Python `xs[i]`. -/
def getE {α : Type} (xs : List α) (i : Nat) : Except String α :=
  match xs.get? i with
  | some a => .ok a
  | none => .error "IndexError"

/-- `validate_ssn` with its three uncaught `int(...)` calls modelled. -/
def validateSsnE (ssn : List Char) : Except String Bool :=
  let cleanSsn := removeWsDash ssn
  if cleanSsn.length ≠ 9 || !cleanSsn.all Char.isDigit then .ok false
  else do
    let area ← pyIntE (cleanSsn.take 3)
    let grp ← pyIntE (slice cleanSsn 3 5)
    let serial ← pyIntE (cleanSsn.drop 5)
    if area.toNat = 0 || area.toNat = 666 || area.toNat ≥ 900 then .ok false
    else if grp.toNat = 0 || serial.toNat = 0 then .ok false
    else if 734 ≤ area.toNat && area.toNat ≤ 749 then .ok false
    else .ok true

/-- `validate_phone` with its uncaught `int(...)` call modelled. -/
def validatePhoneE (phone : List Char) : Except String Bool :=
  let digits := phone.filter Char.isDigit
  if digits.length = 10 then do
    let areaCode ← pyIntE (digits.take 3)
    if areaCode.toNat < 200 || areaCode.toNat = 911 || areaCode.toNat = 988 then
      .ok false
    else .ok true
  else if 11 ≤ digits.length && digits.length ≤ 15 then .ok true
  else .ok false

/-- `_validate_match` routed through the exception-aware validators. -/
def validateMatchE (value : List Char) (piiType : PIIType) :
    Except String Bool :=
  match piiType with
  | .CREDIT_CARD => .ok (validateCreditCard value)
  | .SSN => validateSsnE value
  | .EMAIL => .ok (validateEmail value)
  | .PHONE => validatePhoneE value
  | .IP_ADDRESS => .ok (validateIpAddress value)
  | .DATE_OF_BIRTH => .ok (validateDateOfBirth value)
  | .PASSPORT => .ok (isValidPassport value)
  | _ => .ok true

/-- `_mask_email` with the uncaught `username[0]` / `username[-1]`. -/
def maskEmailE (email : List Char) : Except String (List Char) :=
  match email.splitOnP (· = '@') with
  | [username, domain] =>
    if username.length ≤ 2 then .ok ("***".data ++ ['@'] ++ domain)
    else if username.length ≤ 4 then do
      let c0 ← getE username 0
      .ok ([c0] ++ "***".data ++ ['@'] ++ domain)
    else do
      let c0 ← getE username 0
      let cl ← getE username (username.length - 1)
      .ok ([c0] ++ "***".data ++ [cl] ++ ['@'] ++ domain)
  | _ => .ok "[EMAIL]".data

/-- `_mask_name` with the uncaught `part[0]` (guarded by `len(part) > 0`). -/
def maskNameE (name : List Char) : Except String (List Char) :=
  let parts := pySplitWs name
  if parts.length = 0 then .ok "[NAME]".data
  else do
    let maskedParts ← parts.foldlM
      (fun acc part =>
        if part.length > 0 then do
          let c0 ← getE part 0
          pure (acc ++ [c0.toUpper :: "***".data])
        else pure acc)
      ([] : List (List Char))
    pure (List.intercalate [' '] maskedParts)

/-- `_mask_partial` routed through the exception-aware maskers. -/
def maskPartialDispatchE (value : List Char) (piiType : PIIType) :
    Except String (List Char) :=
  match piiType with
  | .CREDIT_CARD => .ok (maskCreditCard value)
  | .SSN => .ok (maskSsn value)
  | .EMAIL => maskEmailE value
  | .PHONE => .ok (maskPhone value)
  | .PERSON_NAME => maskNameE value
  | .BANK_ACCOUNT => .ok (maskBankAccount value)
  | _ => .ok (maskFull value piiType)

/-- `PIIMasker.mask` routed through the exception-aware maskers. -/
def Masker.maskE (sha256hex : List Char → List Char) (mk : Masker)
    (value : List Char) (piiType : PIIType) (strategy? : Option MaskingStrategy) :
    Except String (List Char × Masker) :=
  let strategy := strategy?.getD mk.defaultStrategy
  match strategy with
  | .FULL => .ok (maskFull value piiType, mk)
  | .PARTIAL => do
    let v ← maskPartialDispatchE value piiType
    .ok (v, mk)
  | .REDACT => .ok (maskRedact value, mk)
  | .HASH => .ok (maskHash sha256hex value piiType, mk)
  | .TOKENIZE => .ok (maskTokenize mk value piiType)

/-- Exception-aware `_detect_pattern_based` inner loop. -/
def patternSpanLoopE (sha256hex : List Char → List Char) (d : Detector)
    (text : List Char) (pd : PIIPattern) (spans : List (Nat × Nat))
    (acc : List PIIMatch × Masker) : Except String (List PIIMatch × Masker) :=
  spans.foldlM
    (fun acc sp => do
      let value := slice text sp.1 sp.2
      let isValid ←
        if pd.requiresValidation && d.enableStrictValidation then
          validateMatchE value pd.piiType
        else pure true
      if !isValid then pure acc
      else do
        let confidence :=
          calculateConfidence d text value sp.1 sp.2 pd.piiType pd.confidence isValid
        let strategy := d.maskingConfig.getStrategy pd.piiType
        let mres ← acc.2.maskE sha256hex value pd.piiType (some strategy)
        pure
          (acc.1 ++ [⟨pd.piiType.value, value, sp.1, sp.2, confidence, mres.1, none⟩],
           mres.2))
    acc

/-- Exception-aware `_detect_pattern_based`. -/
def detectPatternBasedE (sha256hex : List Char → List Char) (d : Detector)
    (text : List Char) (piiTypes : Option (List PIIType))
    (spans : Nat → List (Nat × Nat)) : Except String (List PIIMatch × Masker) :=
  (patternRegistry.enum).foldlM
    (fun acc ip =>
      if skipType piiTypes ip.2.piiType then pure acc
      else patternSpanLoopE sha256hex d text ip.2 (spans ip.1) acc)
    ([], d.masker)

/-- Exception-aware `nameCandidate` (masking may index into the name). -/
def nameCandidateE (sha256hex : List Char → List Char) (d : Detector)
    (text fullName : List Char) (confCtx confNoCtx : ℚ) (mk : Masker) :
    Except String (List PIIMatch × Masker) :=
  match strFind text fullName with
  | some startPos => do
    let contextValid :=
      if d.enableContextValidation then
        isLikelyNameContext text startPos (startPos + fullName.length)
      else true
    let confidence := if contextValid then confCtx else confNoCtx
    let mres ← mk.maskE sha256hex fullName .PERSON_NAME none
    .ok ([⟨PIIType.PERSON_NAME.value, fullName, startPos,
           startPos + fullName.length, confidence, mres.1, none⟩], mres.2)
  | none => .ok ([], mk)

/-- Exception-aware `_extract_name_sequence` loop (`words[i]` checked). -/
def extractNameSequenceGoE (words : List (List Char)) (startIdx : Nat) :
    Nat → Nat → Except String (List (List Char) × Nat)
  | 0, i => .ok ([], i)
  | fuel + 1, i =>
    if i < words.length && i < startIdx + 4 then do
      let wi ← getE words i
      let word := stripChars puncts wi
      let wordLower := lowerStr word
      if isCapitalizedWord word || inWordSet nameSuffixes wordLower then do
        let r ← extractNameSequenceGoE words startIdx fuel (i + 1)
        .ok (wi :: r.1, r.2)
      else .ok ([], i)
    else .ok ([], i)

/-- Exception-aware `_extract_name_sequence` (`words[start_idx]` checked). -/
def extractNameSequenceE (words : List (List Char)) (startIdx : Nat) :
    Except String (List (List Char) × Nat) := do
  let w0 ← getE words startIdx
  let r ← extractNameSequenceGoE words startIdx 3 (startIdx + 1)
  .ok (w0 :: r.1, r.2)

/-- Exception-aware `_detect_names` loop (`words[i]`, `words[i+1]` checked). -/
def detectNamesGoE (sha256hex : List Char → List Char) (d : Detector)
    (text : List Char) (words : List (List Char)) :
    Nat → Nat → Masker → Except String (List PIIMatch × Masker)
  | 0, _, mk => .ok ([], mk)
  | fuel + 1, i, mk =>
    if i < words.length then do
      let wi ← getE words i
      let word := stripChars puncts wi
      let wordLower := lowerStr word
      if inWordSet namePrefixes wordLower && i + 1 < words.length then do
        let ext ← extractNameSequenceE words i
        let em ←
          if !ext.1.isEmpty && ext.1.length ≥ 2 then
            nameCandidateE sha256hex d text (List.intercalate [' '] ext.1)
              0.85 0.70 mk
          else pure ([], mk)
        let tail ← detectNamesGoE sha256hex d text words fuel ext.2 em.2
        .ok (em.1 ++ tail.1, tail.2)
      else if inWordSet commonFirstNames wordLower && i + 1 < words.length then do
        let wi1 ← getE words (i + 1)
        let nextWord := stripChars puncts wi1
        let em ←
          if isCapitalizedWord nextWord && nextWord.length > 2 then
            nameCandidateE sha256hex d text (wi ++ [' '] ++ wi1) 0.75 0.60 mk
          else pure ([], mk)
        let tail ← detectNamesGoE sha256hex d text words fuel (i + 2) em.2
        .ok (em.1 ++ tail.1, tail.2)
      else detectNamesGoE sha256hex d text words fuel (i + 1) mk
    else .ok ([], mk)

/-- Exception-aware `_detect_names`. -/
def detectNamesE (sha256hex : List Char → List Char) (d : Detector)
    (text : List Char) (mk : Masker) : Except String (List PIIMatch × Masker) :=
  let words := pySplitWs text
  detectNamesGoE sha256hex d text words words.length 0 mk

/-- Exception-aware `_detect_addresses`. -/
def detectAddressesE (sha256hex : List Char → List Char) (d : Detector)
    (text : List Char) (spans : List (Nat × Nat)) (mk : Masker) :
    Except String (List PIIMatch × Masker) :=
  spans.foldlM
    (fun acc sp => do
      let address := slice text sp.1 sp.2
      let contextValid :=
        if d.enableContextValidation then isLikelyAddressContext text sp.1 sp.2
        else true
      let confidence : ℚ := if contextValid then 0.80 else 0.65
      let mres ← acc.2.maskE sha256hex address .ADDRESS none
      pure
        (acc.1 ++ [⟨PIIType.ADDRESS.value, address, sp.1, sp.2, confidence, mres.1, none⟩],
         mres.2))
    ([], mk)

/-- Exception-aware candidate generation. -/
def detectAllCandidatesE (sha256hex : List Char → List Char) (d : Detector)
    (text : List Char) (piiTypes : Option (List PIIType))
    (patternSpans : Nat → List (Nat × Nat)) (addressSpans : List (Nat × Nat)) :
    Except String (List PIIMatch × Masker) := do
  let pres ← detectPatternBasedE sha256hex d text piiTypes patternSpans
  let nres ←
    if typeEnabled piiTypes .PERSON_NAME then detectNamesE sha256hex d text pres.2
    else pure ([], pres.2)
  let ares ←
    if typeEnabled piiTypes .ADDRESS then
      detectAddressesE sha256hex d text addressSpans nres.2
    else pure ([], nres.2)
  .ok (pres.1 ++ nres.1 ++ ares.1, ares.2)

/-- Exception-aware `detect_all`. -/
def detectAllE (sha256hex : List Char → List Char) (d : Detector)
    (text : List Char) (confidenceThreshold : ℚ)
    (piiTypes : Option (List PIIType)) (patternSpans : Nat → List (Nat × Nat))
    (addressSpans : List (Nat × Nat)) : Except String (List PIIMatch × Detector) := do
  let cres ←
    detectAllCandidatesE sha256hex d text piiTypes patternSpans addressSpans
  let filteredMatches :=
    cres.1.filter (fun m => confidenceThreshold ≤ m.confidence)
  .ok (resolveOverlaps filteredMatches, { d with masker := cres.2 })

/-- Exception-aware `mask_text`. -/
def maskTextE (sha256hex : List Char → List Char) (d : Detector)
    (text : List Char) (ms? : Option (List PIIMatch))
    (confidenceThreshold : ℚ) (patternSpans : Nat → List (Nat × Nat))
    (addressSpans : List (Nat × Nat)) : Except String (List Char × Detector) := do
  let dres ←
    match ms? with
    | some ms => pure (ms, d)
    | none =>
      detectAllE sha256hex d text confidenceThreshold none patternSpans addressSpans
  if dres.1.isEmpty then .ok (text, dres.2)
  else
    let sortedMs := dres.1.mergeSort (fun a b => b.start ≤ a.start)
    .ok (sortedMs.foldl
           (fun res m => res.take m.start ++ m.maskedValue ++ res.drop m.stop) text,
         dres.2)

/-! ## Specification-side definitions

`luhnSpec` renders §4.5's wording of the Luhn check; `dobClaimSpec` renders
the claimed date-of-birth acceptance condition; `dobCodeSpec` is the
corrected declarative characterization of `validate_date_of_birth`. -/

/-- The Luhn total as the specification words it: sum over the reversed
digit sequence, doubling digits at odd indices from the right and
subtracting 9 from doubled values exceeding 9. -/
def luhnSpecTotal (digits : List Nat) : Nat :=
  (digits.reverse.enum.map
    (fun p =>
      if p.1 % 2 = 1 then (if p.2 * 2 > 9 then p.2 * 2 - 9 else p.2 * 2)
      else p.2)).sum

/-- The credit-card validator as the specification words it: strip
non-digits, require 13–19 digits, accept iff the Luhn total is 0 mod 10. -/
def luhnSpec (cardNumber : List Char) : Bool :=
  let digits := (cardNumber.filter Char.isDigit).map digitVal
  13 ≤ digits.length && digits.length ≤ 19 && luhnSpecTotal digits % 10 = 0

/-- The date-of-birth acceptance condition exactly as the claim states it:
exactly 3 parts, exactly one of length 4 (the year, in `[1900, 2025]`), and
every remaining part of length ≤ 2 an integer in `[1, 31]`. -/
def dobClaimSpec (dob : List Char) : Bool :=
  let parts := dob.splitOnP (fun c => c = '/' || c = '-')
  parts.length = 3 &&
  parts.countP (fun p => p.length = 4) = 1 &&
  (match parts.find? (fun p => p.length = 4) with
   | some yearPart =>
     (match pyInt yearPart with
      | some year => 1900 ≤ year && year ≤ 2025
      | none => false)
   | none => false) &&
  parts.all (fun p =>
    p.length = 4 ||
    (p.length ≤ 2 &&
     match pyInt p with
     | some v => 1 ≤ v && v ≤ 31
     | none => false))

/-- Corrected declarative characterization of `validate_date_of_birth`:
exactly 3 parts; the first part of length 4 parses as a year in
`[1900, 2025]`; every part of length ≤ 2 parses as an integer in `[1, 31]`;
parts of length 3, and length-4 parts after the first, are unconstrained. -/
def dobCodeSpec (dob : List Char) : Bool :=
  let parts := dob.splitOnP (fun c => c = '/' || c = '-')
  parts.length = 3 &&
  (match parts.find? (fun p => p.length = 4) with
   | some yearPart =>
     (match pyInt yearPart with
      | some year => 1900 ≤ year && year ≤ 2025
      | none => false)
   | none => false) &&
  parts.all (fun p =>
    2 < p.length ||
    (match pyInt p with
     | some v => 1 ≤ v && v ≤ 31
     | none => false))

/-- Disjointness of the half-open spans `[start, stop)` of two matches. -/
def SpansDisjoint (a b : PIIMatch) : Prop :=
  a.stop ≤ b.start ∨ b.stop ≤ a.start

/-- The C3 counterexample configuration: a fresh detector whose EMAIL
strategy is switched to TOKENIZE via `set_masking_strategy`. -/
def tokenizeDetector : Detector :=
  (Detector.init true true).setMaskingStrategy .EMAIL .TOKENIZE

/-- `finditer` spans of the registry's EMAIL pattern (index 6) on the text
`"john@example.com"`: the single whole-string match. -/
def emailSpan : Nat → List (Nat × Nat) := fun i => if i = 6 then [(0, 16)] else []

/-- First `detect_all` call of the C3 counterexample. -/
def tokenizeRun1 : List PIIMatch × Detector :=
  detectAll (fun _ => []) tokenizeDetector "john@example.com".data 0.7 none
    emailSpan []

/-- Second, identical, `detect_all` call on the same detector instance. -/
def tokenizeRun2 : List PIIMatch × Detector :=
  detectAll (fun _ => []) tokenizeRun1.2 "john@example.com".data 0.7 none
    emailSpan []

/-- The match the C3 counterexample's run number `k` produces: the whole
email, masked as the `k`-th token. -/
def tokenizeMatch (k : Nat) : PIIMatch :=
  ⟨PIIType.EMAIL.value, "john@example.com".data, 0, 16,
   adjustConfidence 0.99 false true true,
   ['['] ++ PIIType.EMAIL.value ++ "_TOKEN_".data ++ pad4 k ++ [']'], none⟩

/-! ## Overlap-resolver lemmas -/

theorem spansDisjoint_symm {a b : PIIMatch} (h : SpansDisjoint a b) :
    SpansDisjoint b a := h.symm

theorem spansDisjoint_symmetric : Symmetric SpansDisjoint :=
  fun _ _ h => spansDisjoint_symm h

theorem hasOverlap_false_iff {a b : PIIMatch} :
    hasOverlap a b = false ↔ SpansDisjoint a b := by
  simp only [hasOverlap, SpansDisjoint, Bool.and_eq_false_iff, decide_eq_false_iff_not,
    Nat.not_lt]
  exact Or.comm

theorem hasOverlap_true_iff {a b : PIIMatch} :
    hasOverlap a b = true ↔ a.start < b.stop ∧ b.start < a.stop := by
  simp only [hasOverlap, Bool.and_eq_true, decide_eq_true_eq, gt_iff_lt]

/-- A candidate whose start is to the right of every accepted start can
overlap at most one member of a pairwise-disjoint accepted list. -/
theorem overlap_not_disjoint {m x r : PIIMatch}
    (hx : hasOverlap m x = true) (hr : hasOverlap m r = true)
    (hxs : x.start ≤ m.start) (hrs : r.start ≤ m.start) :
    ¬ SpansDisjoint x r := by
  rw [hasOverlap_true_iff] at hx hr
  simp only [SpansDisjoint, not_or, Nat.not_le]
  omega

theorem resolveInsert_subset {m : PIIMatch} {R : List PIIMatch} {y : PIIMatch}
    (h : y ∈ resolveInsert m R) : y = m ∨ y ∈ R := by
  induction R with
  | nil =>
    simp only [resolveInsert, List.mem_singleton] at h
    exact Or.inl h
  | cons x rest ih =>
    simp only [resolveInsert] at h
    by_cases hov : hasOverlap m x = true
    · rw [if_pos hov] at h
      by_cases hc : m.confidence > x.confidence
      · rw [if_pos hc] at h
        rcases List.mem_append.mp h with h' | h'
        · exact Or.inr (List.mem_cons_of_mem _ h')
        · exact Or.inl (List.mem_singleton.mp h')
      · rw [if_neg hc] at h
        exact Or.inr h
    · rw [if_neg hov] at h
      rcases List.mem_cons.mp h with h' | h'
      · exact Or.inr (h' ▸ List.mem_cons_self _ _)
      · rcases ih h' with h'' | h''
        · exact Or.inl h''
        · exact Or.inr (List.mem_cons_of_mem _ h'')

theorem resolveInsert_pairwise {m : PIIMatch} {R : List PIIMatch}
    (hp : R.Pairwise SpansDisjoint) (hs : ∀ r ∈ R, r.start ≤ m.start) :
    (resolveInsert m R).Pairwise SpansDisjoint := by
  induction R with
  | nil => simp [resolveInsert]
  | cons x rest ih =>
    rcases List.pairwise_cons.mp hp with ⟨hx, hrest⟩
    simp only [resolveInsert]
    by_cases hov : hasOverlap m x = true
    · rw [if_pos hov]
      by_cases hc : m.confidence > x.confidence
      · rw [if_pos hc]
        apply List.pairwise_append.mpr
        refine ⟨hrest, List.pairwise_singleton _ _, ?_⟩
        intro r hr y hy
        rw [List.mem_singleton] at hy
        rw [hy]
        by_contra hnd
        have hrov : hasOverlap m r = true := by
          rw [hasOverlap_true_iff]
          simp only [SpansDisjoint, not_or, Nat.not_le] at hnd
          omega
        exact overlap_not_disjoint hov hrov (hs x (List.mem_cons_self _ _))
          (hs r (List.mem_cons_of_mem _ hr)) (hx r hr)
      · rw [if_neg hc]
        exact hp
    · rw [if_neg hov]
      apply List.pairwise_cons.mpr
      refine ⟨?_, ih hrest (fun r hr => hs r (List.mem_cons_of_mem _ hr))⟩
      intro y hy
      rcases resolveInsert_subset hy with rfl | hy'
      · exact spansDisjoint_symm
          (hasOverlap_false_iff.mp (Bool.not_eq_true _ ▸ eq_false_of_ne_true hov))
      · exact hx y hy'

theorem resolveFold_pairwise :
    ∀ (M R : List PIIMatch),
      M.Pairwise (fun a b => a.start ≤ b.start) →
      R.Pairwise SpansDisjoint →
      (∀ r ∈ R, ∀ m ∈ M, r.start ≤ m.start) →
      (M.foldl (fun acc m => resolveInsert m acc) R).Pairwise SpansDisjoint
  | [], R, _, hR, _ => by simpa using hR
  | m :: M', R, hM, hR, hRM => by
    rw [List.foldl_cons]
    apply resolveFold_pairwise M' (resolveInsert m R)
    · exact (List.pairwise_cons.mp hM).2
    · exact resolveInsert_pairwise hR (fun r hr => hRM r hr m (List.mem_cons_self _ _))
    · intro r hr m' hm'
      rcases resolveInsert_subset hr with rfl | hr'
      · exact (List.pairwise_cons.mp hM).1 m' hm'
      · exact hRM r hr' m' (List.mem_cons_of_mem _ hm')

theorem resolveFold_subset :
    ∀ (M R : List PIIMatch) {y : PIIMatch},
      y ∈ M.foldl (fun acc m => resolveInsert m acc) R → y ∈ R ∨ y ∈ M
  | [], _, _, h => Or.inl (by simpa using h)
  | m :: M', R, y, h => by
    rw [List.foldl_cons] at h
    rcases resolveFold_subset M' (resolveInsert m R) h with h' | h'
    · rcases resolveInsert_subset h' with rfl | h''
      · exact Or.inr (List.mem_cons_self _ _)
      · exact Or.inl h''
    · exact Or.inr (List.mem_cons_of_mem _ h')

theorem startConfLe_trans (a b c : PIIMatch) (hab : startConfLe a b)
    (hbc : startConfLe b c) : startConfLe a c := by
  simp only [startConfLe, Bool.or_eq_true, Bool.and_eq_true, decide_eq_true_eq] at *
  rcases hab with h1 | ⟨h1, h1'⟩ <;> rcases hbc with h2 | ⟨h2, h2'⟩
  · exact Or.inl (h1.trans h2)
  · exact Or.inl (h2 ▸ h1)
  · exact Or.inl (h1 ▸ h2)
  · exact Or.inr ⟨h1.trans h2, h2'.trans h1'⟩

theorem startConfLe_total (a b : PIIMatch) : startConfLe a b || startConfLe b a := by
  simp only [startConfLe, Bool.or_eq_true, Bool.and_eq_true, decide_eq_true_eq]
  rcases Nat.lt_trichotomy a.start b.start with h | h | h
  · exact Or.inl (Or.inl h)
  · rcases le_total a.confidence b.confidence with hc | hc
    · exact Or.inr (Or.inr ⟨h.symm, hc⟩)
    · exact Or.inl (Or.inr ⟨h, hc⟩)
  · exact Or.inr (Or.inl h)

theorem startLe_trans (a b c : PIIMatch) (hab : startLe a b) (hbc : startLe b c) :
    startLe a c := by
  simp only [startLe, decide_eq_true_eq] at *
  exact hab.trans hbc

theorem startLe_total (a b : PIIMatch) : startLe a b || startLe b a := by
  simp only [startLe, Bool.or_eq_true, decide_eq_true_eq]
  exact Nat.le_total _ _

theorem startConfLe_start_le {a b : PIIMatch} (h : startConfLe a b) :
    a.start ≤ b.start := by
  simp only [startConfLe, Bool.or_eq_true, Bool.and_eq_true, decide_eq_true_eq] at h
  rcases h with h | ⟨h, _⟩
  · exact Nat.le_of_lt h
  · exact Nat.le_of_eq h

theorem resolveOverlaps_pairwiseDisjoint (ms : List PIIMatch) :
    (resolveOverlaps ms).Pairwise SpansDisjoint := by
  unfold resolveOverlaps
  by_cases h : ms.isEmpty
  · simp [h]
  · simp only [h, Bool.false_eq_true, if_false]
    have hfold : ((ms.mergeSort startConfLe).foldl
        (fun acc m => resolveInsert m acc) []).Pairwise SpansDisjoint := by
      apply resolveFold_pairwise
      · exact (List.sorted_mergeSort startConfLe_trans startConfLe_total ms).imp
          (fun hab => startConfLe_start_le hab)
      · exact List.Pairwise.nil
      · intro r hr
        simp at hr
    exact List.Pairwise.perm hfold (List.mergeSort_perm _ startLe).symm
      (fun h => spansDisjoint_symm h)

theorem resolveOverlaps_sorted (ms : List PIIMatch) :
    (resolveOverlaps ms).Pairwise (fun a b => a.start ≤ b.start) := by
  unfold resolveOverlaps
  by_cases h : ms.isEmpty
  · simp [h]
  · simp only [h, Bool.false_eq_true, if_false]
    exact (List.sorted_mergeSort startLe_trans startLe_total _).imp
      (fun hab => by simpa [startLe] using hab)

theorem resolveOverlaps_subset {ms : List PIIMatch} {y : PIIMatch}
    (h : y ∈ resolveOverlaps ms) : y ∈ ms := by
  unfold resolveOverlaps at h
  by_cases he : ms.isEmpty
  · simp [he] at h
  · simp only [he, Bool.false_eq_true, if_false] at h
    rw [List.mem_mergeSort] at h
    rcases resolveFold_subset _ _ h with h' | h'
    · simp at h'
    · exact List.mem_mergeSort.mp h'

/-- C1: for every input text (its pattern/address spans included) and every
confidence threshold, the matches returned by `detect_all` are pairwise
non-overlapping — their half-open `[start, stop)` spans are disjoint — and
are sorted ascending by `start`. -/
theorem detectAll_nonoverlapping_sorted (sha256hex : List Char → List Char)
    (d : Detector) (text : List Char) (thr : ℚ) (types : Option (List PIIType))
    (pSpans : Nat → List (Nat × Nat)) (aSpans : List (Nat × Nat)) :
    ((detectAll sha256hex d text thr types pSpans aSpans).1).Pairwise SpansDisjoint ∧
    ((detectAll sha256hex d text thr types pSpans aSpans).1).Pairwise
      (fun a b => a.start ≤ b.start) :=
  ⟨resolveOverlaps_pairwiseDisjoint _, resolveOverlaps_sorted _⟩

/-! ## Span–value agreement (C2) -/

theorem strFind_prefix :
    ∀ (hay needle : List Char) (p : Nat),
      strFind hay needle = some p → needle <+: hay.drop p := by
  intro hay
  induction hay with
  | nil =>
    intro needle p h
    rw [strFind] at h
    by_cases hp : needle.isPrefixOf ([] : List Char) = true
    · rw [if_pos hp] at h
      injection h with h'
      subst h'
      simpa using List.isPrefixOf_iff_prefix.mp hp
    · rw [if_neg hp] at h
      exact absurd h (by simp)
  | cons a t ih =>
    intro needle p h
    rw [strFind] at h
    by_cases hp : needle.isPrefixOf (a :: t) = true
    · rw [if_pos hp] at h
      injection h with h'
      subst h'
      simpa using List.isPrefixOf_iff_prefix.mp hp
    · rw [if_neg hp] at h
      simp only [Option.map_eq_some'] at h
      obtain ⟨q, hq, hpq⟩ := h
      subst hpq
      simpa [List.drop_succ_cons] using ih needle q hq

theorem slice_of_strFind {text needle : List Char} {p : Nat}
    (h : strFind text needle = some p) :
    slice text p (p + needle.length) = needle := by
  obtain ⟨u, hu⟩ := strFind_prefix text needle p h
  unfold slice
  rw [Nat.add_sub_cancel_left, ← hu, List.take_left]

/-- A fold preserves any invariant of its accumulator. -/
theorem foldl_inv {α β : Type} (f : β → α → β) (P : β → Prop)
    (hstep : ∀ b a, P b → P (f b a)) :
    ∀ (l : List α) (b : β), P b → P (l.foldl f b)
  | [], _, hb => hb
  | a :: l, b, hb => by
    rw [List.foldl_cons]
    exact foldl_inv f P hstep l (f b a) (hstep b a hb)

/-- Membership in a list with one element appended. -/
theorem mem_append_singleton {α : Type} {y m : α} {l : List α}
    (h : y ∈ l ++ [m]) : y ∈ l ∨ y = m := by
  rcases List.mem_append.mp h with h' | h'
  · exact Or.inl h'
  · exact Or.inr (List.mem_singleton.mp h')

/-- Every match emitted by the pattern loop records its own slice. -/
theorem patternSpanLoop_value (sha256hex : List Char → List Char) (d : Detector)
    (text : List Char) (pd : PIIPattern) (spans : List (Nat × Nat))
    (acc : List PIIMatch × Masker)
    (hacc : ∀ y ∈ acc.1, slice text y.start y.stop = y.value) :
    ∀ y ∈ (patternSpanLoop sha256hex d text pd spans acc).1,
      slice text y.start y.stop = y.value := by
  rw [patternSpanLoop]
  refine foldl_inv _
    (fun (b : List PIIMatch × Masker) => ∀ y ∈ b.1, slice text y.start y.stop = y.value)
    ?_ spans acc hacc
  intro b sp hb y hy
  dsimp only at hy
  split at hy <;> try split at hy
  all_goals
    first
      | exact hb y hy
      | exact (mem_append_singleton hy).elim (fun h => hb y h) (fun h => by subst h; rfl)

theorem detectPatternBased_value (sha256hex : List Char → List Char)
    (d : Detector) (text : List Char) (piiTypes : Option (List PIIType))
    (spans : Nat → List (Nat × Nat)) :
    ∀ y ∈ (detectPatternBased sha256hex d text piiTypes spans).1,
      slice text y.start y.stop = y.value := by
  rw [detectPatternBased]
  refine foldl_inv _
    (fun (b : List PIIMatch × Masker) => ∀ y ∈ b.1, slice text y.start y.stop = y.value)
    ?_ _ _ (by intro y hy; simp at hy)
  intro b ip hb y hy
  split at hy
  · exact hb y hy
  · exact patternSpanLoop_value sha256hex d text ip.2 (spans ip.1) b hb y hy

theorem nameCandidate_value (sha256hex : List Char → List Char) (d : Detector)
    (text fullName : List Char) (c1 c2 : ℚ) (mk : Masker) :
    ∀ y ∈ (nameCandidate sha256hex d text fullName c1 c2 mk).1,
      slice text y.start y.stop = y.value := by
  rw [nameCandidate]
  split
  · next startPos hfind =>
    intro y hy
    rw [List.mem_singleton] at hy
    subst hy
    exact slice_of_strFind hfind
  · intro y hy
    simp at hy

theorem detectNamesGo_value (sha256hex : List Char → List Char) (d : Detector)
    (text : List Char) (words : List (List Char)) :
    ∀ (fuel i : Nat) (mk : Masker),
      ∀ y ∈ (detectNamesGo sha256hex d text words fuel i mk).1,
        slice text y.start y.stop = y.value := by
  intro fuel
  induction fuel with
  | zero =>
    intro i mk y hy
    simp [detectNamesGo] at hy
  | succ fuel ih =>
    intro i mk y hy
    rw [detectNamesGo] at hy
    split at hy
    · dsimp only at hy
      split at hy
      · rcases List.mem_append.mp hy with h' | h'
        · split at h'
          · exact nameCandidate_value sha256hex d text _ _ _ _ y h'
          · simp at h'
        · exact ih _ _ y h'
      · split at hy
        · rcases List.mem_append.mp hy with h' | h'
          · split at h'
            · exact nameCandidate_value sha256hex d text _ _ _ _ y h'
            · simp at h'
          · exact ih _ _ y h'
        · exact ih _ _ y hy
    · simp at hy

theorem detectNames_value (sha256hex : List Char → List Char) (d : Detector)
    (text : List Char) (mk : Masker) :
    ∀ y ∈ (detectNames sha256hex d text mk).1,
      slice text y.start y.stop = y.value := by
  rw [detectNames]
  exact detectNamesGo_value sha256hex d text _ _ 0 mk

theorem detectAddresses_value (sha256hex : List Char → List Char) (d : Detector)
    (text : List Char) (spans : List (Nat × Nat)) (mk : Masker) :
    ∀ y ∈ (detectAddresses sha256hex d text spans mk).1,
      slice text y.start y.stop = y.value := by
  rw [detectAddresses]
  refine foldl_inv _
    (fun (b : List PIIMatch × Masker) => ∀ y ∈ b.1, slice text y.start y.stop = y.value)
    ?_ _ _ (by intro y hy; simp at hy)
  intro b sp hb y hy
  dsimp only at hy
  exact (mem_append_singleton hy).elim (fun h => hb y h) (fun h => by subst h; rfl)

theorem detectAllCandidates_value (sha256hex : List Char → List Char)
    (d : Detector) (text : List Char) (piiTypes : Option (List PIIType))
    (pSpans : Nat → List (Nat × Nat)) (aSpans : List (Nat × Nat)) :
    ∀ y ∈ (detectAllCandidates sha256hex d text piiTypes pSpans aSpans).1,
      slice text y.start y.stop = y.value := by
  rw [detectAllCandidates]
  dsimp only
  intro y hy
  rcases List.mem_append.mp hy with hy' | h3
  · rcases List.mem_append.mp hy' with h1 | h2
    · exact detectPatternBased_value sha256hex d text piiTypes pSpans y h1
    · revert h2
      split
      · exact fun h2 => detectNames_value sha256hex d text _ y h2
      · intro h2; simp at h2
  · revert h3
    split
    · exact fun h3 => detectAddresses_value sha256hex d text aSpans _ y h3
    · intro h3; simp at h3

/-- C2: every match returned by `detect_all` satisfies
`text[start:end] == value` — its recorded span of the exact input text
equals its stored value. -/
theorem detectAll_span_eq_value (sha256hex : List Char → List Char)
    (d : Detector) (text : List Char) (thr : ℚ) (types : Option (List PIIType))
    (pSpans : Nat → List (Nat × Nat)) (aSpans : List (Nat × Nat)) :
    ∀ m ∈ (detectAll sha256hex d text thr types pSpans aSpans).1,
      slice text m.start m.stop = m.value := by
  intro m hm
  have hm' : m ∈ resolveOverlaps
      (((detectAllCandidates sha256hex d text types pSpans aSpans).1).filter
        (fun m => decide (thr ≤ m.confidence))) := hm
  have h2 := resolveOverlaps_subset hm'
  have h3 := (List.mem_filter.mp h2).1
  exact detectAllCandidates_value sha256hex d text types pSpans aSpans m h3

/-! ## Stable sort / filter commutation and threshold monotonicity (C4) -/

theorem takeWhile_eq_left {α : Type} {p : α → Bool} :
    ∀ (l₁ l₂ : List α), (∀ b ∈ l₁, p b = true) →
      (∀ c, l₂.head? = some c → p c = false) →
      (l₁ ++ l₂).takeWhile p = l₁
  | [], l₂, _, hc => by
    cases l₂ with
    | nil => rfl
    | cons c t => simp [List.takeWhile_cons, hc c rfl]
  | b :: l₁, l₂, hb, hc => by
    simp only [List.cons_append, List.takeWhile_cons, hb b (List.mem_cons_self _ _),
      if_true]
    rw [takeWhile_eq_left l₁ l₂ (fun x hx => hb x (List.mem_cons_of_mem _ hx)) hc]

theorem dropWhile_eq_right {α : Type} {p : α → Bool} :
    ∀ (l₁ l₂ : List α), (∀ b ∈ l₁, p b = true) →
      (∀ c, l₂.head? = some c → p c = false) →
      (l₁ ++ l₂).dropWhile p = l₂
  | [], l₂, _, hc => by
    cases l₂ with
    | nil => rfl
    | cons c t => simp [List.dropWhile_cons, hc c rfl]
  | b :: l₁, l₂, hb, hc => by
    simp only [List.cons_append, List.dropWhile_cons, hb b (List.mem_cons_self _ _),
      if_true]
    exact dropWhile_eq_right l₁ l₂ (fun x hx => hb x (List.mem_cons_of_mem _ hx)) hc

theorem takeWhile_eq_nil_of_all {α : Type} {p : α → Bool} {l : List α}
    (h : ∀ x ∈ l, p x = false) : l.takeWhile p = [] := by
  cases l with
  | nil => rfl
  | cons a t => simp [List.takeWhile_cons, h a (List.mem_cons_self _ _)]

theorem dropWhile_eq_self_of_all {α : Type} {p : α → Bool} {l : List α}
    (h : ∀ x ∈ l, p x = false) : l.dropWhile p = l := by
  cases l with
  | nil => rfl
  | cons a t => simp [List.dropWhile_cons, h a (List.mem_cons_self _ _)]

/-- Stable insertion position: sorting `a :: l` places `a` after exactly the
sorted elements `b` with `¬ le a b`. -/
theorem mergeSort_cons_eq {α : Type} {le : α → α → Bool}
    (htrans : ∀ (a b c : α), le a b → le b c → le a c)
    (htotal : ∀ (a b : α), le a b || le b a) (a : α) (l : List α) :
    (a :: l).mergeSort le =
      ((l.mergeSort le).takeWhile (fun b => !le a b)) ++
        a :: ((l.mergeSort le).dropWhile (fun b => !le a b)) := by
  obtain ⟨l₁, l₂, h₁, h₂, h₃⟩ := List.mergeSort_cons htrans htotal a l
  have hsorted := List.sorted_mergeSort htrans htotal (a :: l)
  rw [h₁] at hsorted
  have hl₂ : ∀ c, l₂.head? = some c → (!le a c) = false := by
    intro c hc
    have hmem : c ∈ l₂ := by
      cases l₂ with
      | nil => simp at hc
      | cons x t =>
        simp only [List.head?_cons, Option.some.injEq] at hc
        exact hc ▸ List.mem_cons_self _ _
    have hac : le a c := by
      have h' := (List.pairwise_append.mp hsorted).2.1
      exact (List.pairwise_cons.mp h').1 c hmem
    simp [hac]
  have hl₁ : ∀ b ∈ l₁, (!le a b) = true := fun b hb => h₃ b hb
  rw [h₁, h₂, takeWhile_eq_left l₁ l₂ hl₁ hl₂, dropWhile_eq_right l₁ l₂ hl₁ hl₂]

theorem filter_takeWhile_of_sorted {α : Type} {le : α → α → Bool}
    (htrans : ∀ (a b c : α), le a b → le b c → le a c) (p : α → Bool) (a : α) :
    ∀ {s : List α}, s.Pairwise (le · ·) →
      (s.filter p).takeWhile (fun b => !le a b) =
        (s.takeWhile (fun b => !le a b)).filter p
  | [], _ => rfl
  | b :: s', hs => by
    rcases List.pairwise_cons.mp hs with ⟨hb, hs'⟩
    by_cases hq : le a b = true
    · have hall : ∀ x ∈ b :: s', (!le a x) = false := by
        intro x hx
        rcases List.mem_cons.mp hx with rfl | hx'
        · simp [hq]
        · simp [htrans a b x hq (hb x hx')]
      rw [takeWhile_eq_nil_of_all (l := (b :: s').filter p)
            (fun x hx => hall x (List.mem_of_mem_filter hx)),
          takeWhile_eq_nil_of_all hall, List.filter_nil]
    · have hfb : le a b = false := by
        cases h' : le a b
        · rfl
        · exact absurd h' hq
      have h1 : (b :: s').takeWhile (fun x => !le a x)
          = b :: s'.takeWhile (fun x => !le a x) := by
        simp [List.takeWhile_cons, hfb]
      cases hp : p b
      · rw [List.filter_cons_of_neg (by simp [hp]), h1,
          List.filter_cons_of_neg (by simp [hp])]
        exact filter_takeWhile_of_sorted htrans p a hs'
      · rw [List.filter_cons_of_pos (by simp [hp]), h1,
          List.filter_cons_of_pos (by simp [hp])]
        have h2 : (b :: s'.filter p).takeWhile (fun x => !le a x)
            = b :: (s'.filter p).takeWhile (fun x => !le a x) := by
          simp [List.takeWhile_cons, hfb]
        rw [h2, filter_takeWhile_of_sorted htrans p a hs']

theorem filter_dropWhile_of_sorted {α : Type} {le : α → α → Bool}
    (htrans : ∀ (a b c : α), le a b → le b c → le a c) (p : α → Bool) (a : α) :
    ∀ {s : List α}, s.Pairwise (le · ·) →
      (s.filter p).dropWhile (fun b => !le a b) =
        (s.dropWhile (fun b => !le a b)).filter p
  | [], _ => rfl
  | b :: s', hs => by
    rcases List.pairwise_cons.mp hs with ⟨hb, hs'⟩
    by_cases hq : le a b = true
    · have hall : ∀ x ∈ b :: s', (!le a x) = false := by
        intro x hx
        rcases List.mem_cons.mp hx with rfl | hx'
        · simp [hq]
        · simp [htrans a b x hq (hb x hx')]
      rw [dropWhile_eq_self_of_all (l := (b :: s').filter p)
            (fun x hx => hall x (List.mem_of_mem_filter hx)),
          dropWhile_eq_self_of_all hall]
    · have hfb : le a b = false := by
        cases h' : le a b
        · rfl
        · exact absurd h' hq
      have h1 : (b :: s').dropWhile (fun x => !le a x)
          = s'.dropWhile (fun x => !le a x) := by
        simp [List.dropWhile_cons, hfb]
      cases hp : p b
      · rw [List.filter_cons_of_neg (by simp [hp]), h1]
        exact filter_dropWhile_of_sorted htrans p a hs'
      · rw [List.filter_cons_of_pos (by simp [hp]), h1]
        have h2 : (b :: s'.filter p).dropWhile (fun x => !le a x)
            = (s'.filter p).dropWhile (fun x => !le a x) := by
          simp [List.dropWhile_cons, hfb]
        rw [h2]
        exact filter_dropWhile_of_sorted htrans p a hs'

/-- A stable merge sort commutes with `filter`. -/
theorem mergeSort_filter {α : Type} {le : α → α → Bool}
    (htrans : ∀ (a b c : α), le a b → le b c → le a c)
    (htotal : ∀ (a b : α), le a b || le b a) (p : α → Bool) :
    ∀ (l : List α), (l.filter p).mergeSort le = (l.mergeSort le).filter p
  | [] => by simp
  | a :: l => by
    have hsorted := List.sorted_mergeSort htrans htotal l
    cases hp : p a
    · rw [List.filter_cons_of_neg (by simp [hp]), mergeSort_filter htrans htotal p l,
        mergeSort_cons_eq htrans htotal a l, List.filter_append,
        List.filter_cons_of_neg (by simp [hp]),
        ← filter_takeWhile_of_sorted htrans p a hsorted,
        ← filter_dropWhile_of_sorted htrans p a hsorted,
        List.takeWhile_append_dropWhile]
    · rw [List.filter_cons_of_pos (by simp [hp]),
        mergeSort_cons_eq htrans htotal a (l.filter p),
        mergeSort_filter htrans htotal p l,
        filter_takeWhile_of_sorted htrans p a hsorted,
        filter_dropWhile_of_sorted htrans p a hsorted,
        mergeSort_cons_eq htrans htotal a l, List.filter_append,
        List.filter_cons_of_pos (by simp [hp])]

theorem resolveInsert_no_overlap {m : PIIMatch} :
    ∀ {R : List PIIMatch}, (∀ r ∈ R, hasOverlap m r = false) →
      resolveInsert m R = R ++ [m]
  | [], _ => rfl
  | x :: rest, h => by
    rw [resolveInsert, if_neg (by simp [h x (List.mem_cons_self _ _)]),
      resolveInsert_no_overlap (fun r hr => h r (List.mem_cons_of_mem _ hr))]
    rfl

theorem overlap_unique_in {m x : PIIMatch} {R : List PIIMatch}
    (hpair : (x :: R).Pairwise SpansDisjoint)
    (hstart : ∀ r ∈ x :: R, r.start ≤ m.start)
    (hov : hasOverlap m x = true) : ∀ r ∈ R, hasOverlap m r = false := by
  intro r hr
  by_contra h
  have hr' : hasOverlap m r = true := by
    cases h' : hasOverlap m r
    · exact absurd h' h
    · rfl
  exact overlap_not_disjoint hov hr' (hstart x (List.mem_cons_self _ _))
    (hstart r (List.mem_cons_of_mem _ hr))
    ((List.pairwise_cons.mp hpair).1 r hr)

/-- Inserting a high-confidence candidate commutes with filtering away the
strictly-lower-confidence candidates. -/
theorem resolveInsert_filter_high {p : PIIMatch → Bool} {m : PIIMatch}
    (hm : p m = true) :
    ∀ {R : List PIIMatch}, R.Pairwise SpansDisjoint →
      (∀ r ∈ R, r.start ≤ m.start) →
      (∀ z ∈ R, p z = false → z.confidence < m.confidence) →
      resolveInsert m (R.filter p) = (resolveInsert m R).filter p
  | [], _, _, _ => by simp [resolveInsert, hm]
  | x :: rest, hpair, hstart, hsep => by
    have hpairR := (List.pairwise_cons.mp hpair).2
    have hstartR : ∀ r ∈ rest, r.start ≤ m.start :=
      fun r hr => hstart r (List.mem_cons_of_mem _ hr)
    have hsepR : ∀ z ∈ rest, p z = false → z.confidence < m.confidence :=
      fun z hz => hsep z (List.mem_cons_of_mem _ hz)
    cases hpx : p x
    · by_cases hov : hasOverlap m x = true
      · have hc : m.confidence > x.confidence :=
          hsep x (List.mem_cons_self _ _) hpx
        rw [List.filter_cons_of_neg (by simp [hpx]), resolveInsert, if_pos hov,
          if_pos hc, List.filter_append, List.filter_cons_of_pos (by simp [hm]),
          List.filter_nil]
        have hnov : ∀ r ∈ rest.filter p, hasOverlap m r = false :=
          fun r hr => overlap_unique_in hpair hstart hov r (List.mem_of_mem_filter hr)
        exact resolveInsert_no_overlap hnov
      · have hov' : hasOverlap m x = false := by
          cases h' : hasOverlap m x
          · rfl
          · exact absurd h' hov
        rw [List.filter_cons_of_neg (by simp [hpx]), resolveInsert, if_neg hov,
          List.filter_cons_of_neg (by simp [hpx])]
        exact resolveInsert_filter_high hm hpairR hstartR hsepR
    · by_cases hov : hasOverlap m x = true
      · rw [List.filter_cons_of_pos (by simp [hpx]), resolveInsert, if_pos hov,
          resolveInsert, if_pos hov]
        by_cases hc : m.confidence > x.confidence
        · rw [if_pos hc, if_pos hc, List.filter_append,
            List.filter_cons_of_pos (by simp [hm]), List.filter_nil]
        · rw [if_neg hc, if_neg hc, List.filter_cons_of_pos (by simp [hpx])]
      · rw [List.filter_cons_of_pos (by simp [hpx]), resolveInsert, if_neg hov,
          resolveInsert, if_neg hov, List.filter_cons_of_pos (by simp [hpx])]
        rw [resolveInsert_filter_high hm hpairR hstartR hsepR]

/-- Inserting a low-confidence candidate is invisible after filtering. -/
theorem resolveInsert_filter_low {p : PIIMatch → Bool} {m : PIIMatch}
    (hm : p m = false) :
    ∀ {R : List PIIMatch},
      (∀ y ∈ R, p y = true → m.confidence < y.confidence) →
      (resolveInsert m R).filter p = R.filter p
  | [], _ => by simp [resolveInsert, hm]
  | x :: rest, hsep => by
    have hsepR : ∀ y ∈ rest, p y = true → m.confidence < y.confidence :=
      fun y hy => hsep y (List.mem_cons_of_mem _ hy)
    rw [resolveInsert]
    by_cases hov : hasOverlap m x = true
    · rw [if_pos hov]
      by_cases hc : m.confidence > x.confidence
      · have hpx : p x = false := by
          cases h' : p x
          · rfl
          · exact absurd (lt_trans (hsep x (List.mem_cons_self _ _) h') hc)
              (lt_irrefl _)
        rw [if_pos hc, List.filter_append, List.filter_cons_of_neg (by simp [hm]),
          List.filter_nil, List.filter_cons_of_neg (by simp [hpx]), List.append_nil]
      · rw [if_neg hc]
    · rw [if_neg hov]
      cases hpx : p x
      · rw [List.filter_cons_of_neg (by simp [hpx]),
          List.filter_cons_of_neg (by simp [hpx])]
        exact resolveInsert_filter_low hm hsepR
      · rw [List.filter_cons_of_pos (by simp [hpx]),
          List.filter_cons_of_pos (by simp [hpx]),
          resolveInsert_filter_low hm hsepR]

/-- The whole greedy resolution loop commutes with filtering away a set of
candidates whose confidences all lie strictly below the kept ones. -/
theorem resolveFold_filter {p : PIIMatch → Bool} :
    ∀ (M R : List PIIMatch),
      M.Pairwise (fun a b => a.start ≤ b.start) →
      R.Pairwise SpansDisjoint →
      (∀ r ∈ R, ∀ m ∈ M, r.start ≤ m.start) →
      (∀ x y, (x ∈ R ∨ x ∈ M) → (y ∈ R ∨ y ∈ M) → p x = false → p y = true →
        x.confidence < y.confidence) →
      (M.filter p).foldl (fun acc m => resolveInsert m acc) (R.filter p)
        = (M.foldl (fun acc m => resolveInsert m acc) R).filter p
  | [], R, _, _, _, _ => rfl
  | m :: M', R, hM, hR, hRM, hsep => by
    have hMtail := (List.pairwise_cons.mp hM).2
    have hmhead := (List.pairwise_cons.mp hM).1
    have hR' : (resolveInsert m R).Pairwise SpansDisjoint :=
      resolveInsert_pairwise hR (fun r hr => hRM r hr m (List.mem_cons_self _ _))
    have hRM' : ∀ r ∈ resolveInsert m R, ∀ m' ∈ M', r.start ≤ m'.start := by
      intro r hr m' hm'
      rcases resolveInsert_subset hr with rfl | hr'
      · exact hmhead m' hm'
      · exact hRM r hr' m' (List.mem_cons_of_mem _ hm')
    have hsep' : ∀ x y, (x ∈ resolveInsert m R ∨ x ∈ M') →
        (y ∈ resolveInsert m R ∨ y ∈ M') → p x = false → p y = true →
        x.confidence < y.confidence := by
      intro x y hx hy
      have hx' : x ∈ R ∨ x ∈ m :: M' := by
        rcases hx with hx | hx
        · rcases resolveInsert_subset hx with rfl | h'
          · exact Or.inr (List.mem_cons_self _ _)
          · exact Or.inl h'
        · exact Or.inr (List.mem_cons_of_mem _ hx)
      have hy' : y ∈ R ∨ y ∈ m :: M' := by
        rcases hy with hy | hy
        · rcases resolveInsert_subset hy with rfl | h'
          · exact Or.inr (List.mem_cons_self _ _)
          · exact Or.inl h'
        · exact Or.inr (List.mem_cons_of_mem _ hy)
      exact hsep x y hx' hy'
    cases hpm : p m
    · rw [List.filter_cons_of_neg (by simp [hpm]), List.foldl_cons]
      have hRfix : (resolveInsert m R).filter p = R.filter p :=
        resolveInsert_filter_low hpm
          (fun y hy hpy =>
            hsep m y (Or.inr (List.mem_cons_self _ _)) (Or.inl hy) hpm hpy)
      rw [← hRfix]
      exact resolveFold_filter M' (resolveInsert m R) hMtail hR' hRM' hsep'
    · rw [List.filter_cons_of_pos (by simp [hpm]), List.foldl_cons, List.foldl_cons]
      have hcomm : resolveInsert m (R.filter p) = (resolveInsert m R).filter p :=
        resolveInsert_filter_high hpm hR
          (fun r hr => hRM r hr m (List.mem_cons_self _ _))
          (fun z hz hpz =>
            hsep z m (Or.inl hz) (Or.inr (List.mem_cons_self _ _)) hpz hpm)
      rw [hcomm]
      exact resolveFold_filter M' (resolveInsert m R) hMtail hR' hRM' hsep'

/-- Raising the threshold filter never increases the overlap-resolved count. -/
theorem resolveOverlaps_filter_length (L : List PIIMatch) {t1 t2 : ℚ}
    (h : t1 ≤ t2) :
    (resolveOverlaps (L.filter (fun m => decide (t2 ≤ m.confidence)))).length ≤
    (resolveOverlaps (L.filter (fun m => decide (t1 ≤ m.confidence)))).length := by
  have hff : L.filter (fun m => decide (t2 ≤ m.confidence))
      = (L.filter (fun m => decide (t1 ≤ m.confidence))).filter
          (fun m => decide (t2 ≤ m.confidence)) := by
    rw [List.filter_filter]
    apply List.filter_congr
    intro m _
    by_cases h2 : t2 ≤ m.confidence
    · simp [h2, le_trans h h2]
    · simp [h2]
  by_cases hem2 : (L.filter (fun m => decide (t2 ≤ m.confidence))).isEmpty
  · rw [resolveOverlaps, if_pos hem2]
    exact Nat.zero_le _
  · have hem1 : (L.filter (fun m => decide (t1 ≤ m.confidence))).isEmpty = false := by
      cases h1 : (L.filter (fun m => decide (t1 ≤ m.confidence))).isEmpty
      · rfl
      · exfalso
        apply hem2
        rw [hff, List.isEmpty_iff.mp h1]
        rfl
    rw [resolveOverlaps, resolveOverlaps, if_neg hem2, if_neg (by simp [hem1])]
    rw [List.length_mergeSort, List.length_mergeSort]
    have hM2 : (L.filter (fun m => decide (t2 ≤ m.confidence))).mergeSort startConfLe
        = ((L.filter (fun m => decide (t1 ≤ m.confidence))).mergeSort
            startConfLe).filter (fun m => decide (t2 ≤ m.confidence)) := by
      rw [hff]
      exact mergeSort_filter startConfLe_trans startConfLe_total _ _
    rw [hM2]
    have hsorted : (((L.filter (fun m => decide (t1 ≤ m.confidence))).mergeSort
        startConfLe)).Pairwise (fun a b => a.start ≤ b.start) :=
      (List.sorted_mergeSort startConfLe_trans startConfLe_total _).imp
        (fun hab => startConfLe_start_le hab)
    have hsep : ∀ x y,
        (x ∈ ([] : List PIIMatch) ∨
          x ∈ (L.filter (fun m => decide (t1 ≤ m.confidence))).mergeSort startConfLe) →
        (y ∈ ([] : List PIIMatch) ∨
          y ∈ (L.filter (fun m => decide (t1 ≤ m.confidence))).mergeSort startConfLe) →
        (fun m => decide (t2 ≤ m.confidence)) x = false →
        (fun m => decide (t2 ≤ m.confidence)) y = true →
        x.confidence < y.confidence := by
      intro x y hx hy hpx hpy
      simp only [decide_eq_false_iff_not, not_le] at hpx
      simp only [decide_eq_true_eq] at hpy
      exact lt_of_lt_of_le hpx hpy
    have hfold := resolveFold_filter
      ((L.filter (fun m => decide (t1 ≤ m.confidence))).mergeSort startConfLe)
      [] hsorted List.Pairwise.nil (by intro r hr; simp at hr) hsep
    rw [show (([] : List PIIMatch).filter (fun m => decide (t2 ≤ m.confidence)))
        = [] from rfl] at hfold
    rw [hfold]
    exact List.length_filter_le _ _

/-- C4: threshold monotonicity — for the same text, spans, and type filter,
raising the confidence threshold never increases the number of matches
`detect_all` returns. -/
theorem detectAll_threshold_monotone (sha256hex : List Char → List Char)
    (d : Detector) (text : List Char) (types : Option (List PIIType))
    (pSpans : Nat → List (Nat × Nat)) (aSpans : List (Nat × Nat))
    (t1 t2 : ℚ) (h : t1 ≤ t2) :
    (detectAll sha256hex d text t2 types pSpans aSpans).1.length ≤
    (detectAll sha256hex d text t1 types pSpans aSpans).1.length :=
  resolveOverlaps_filter_length
    (detectAllCandidates sha256hex d text types pSpans aSpans).1 h

/-- Witness for C4 at a concrete instance. -/
theorem detectAll_threshold_monotone_witness :
    ((0 : ℚ) ≤ 1) ∧
    (detectAll (fun _ => []) (Detector.init true true) "".data 1 none
        (fun _ => []) []).1.length ≤
      (detectAll (fun _ => []) (Detector.init true true) "".data 0 none
        (fun _ => []) []).1.length :=
  ⟨by norm_num,
   detectAll_threshold_monotone (fun _ => []) (Detector.init true true) "".data
     none (fun _ => []) [] 0 1 (by norm_num)⟩

/-! ## Masking examples (C5) -/

/-- C5 counterexample: PARTIAL masking of `"john@example.com"` does not
produce the claimed `"j***n@example.com"` — the 4-character username takes
the `≤ 4` branch, which drops the last character. -/
theorem maskPartial_email_counterexample :
    (Masker.init.mask (fun _ => []) "john@example.com".data .EMAIL
      (some .PARTIAL)).1 ≠ "j***n@example.com".data := by decide

/-- C5 (amended): PARTIAL masking yields `"j***@example.com"` for the email
`"john@example.com"` (username of length 4 → `<first>***`), and
`"****-****-****-6467"` for the credit card `"4532-1488-0343-6467"`. -/
theorem maskPartial_examples_amended :
    (Masker.init.mask (fun _ => []) "john@example.com".data .EMAIL
      (some .PARTIAL)).1 = "j***@example.com".data ∧
    (Masker.init.mask (fun _ => []) "4532-1488-0343-6467".data .CREDIT_CARD
      (some .PARTIAL)).1 = "****-****-****-6467".data := by decide

/-! ## Luhn validation (C6) -/

theorem luhnChecksumGo_eq :
    ∀ (i : Nat) (l : List Nat),
      luhnChecksumGo i l = ((List.enumFrom i l).map (fun p => luhnDigit p.1 p.2)).sum
  | _, [] => rfl
  | i, d :: rest => by
    rw [luhnChecksumGo, List.enumFrom_cons, List.map_cons, List.sum_cons,
      luhnChecksumGo_eq (i + 1) rest]

theorem validateCreditCard_eq_luhnSpec (s : List Char) :
    validateCreditCard s = luhnSpec s := by
  unfold validateCreditCard luhnSpec luhnSpecTotal
  dsimp only
  have hfun : (fun p : Nat × Nat =>
      if p.1 % 2 = 1 then (if p.2 * 2 > 9 then p.2 * 2 - 9 else p.2 * 2) else p.2)
      = fun p : Nat × Nat => luhnDigit p.1 p.2 := by
    funext p
    simp [luhnDigit]
  rw [hfun, luhnChecksumGo_eq 0, List.enum_eq_enumFrom]
  by_cases h13 : 13 ≤ ((s.filter Char.isDigit).map digitVal).length
  · by_cases h19 : ((s.filter Char.isDigit).map digitVal).length ≤ 19
    · rw [if_neg (by simp only [Bool.or_eq_true, decide_eq_true_eq]; omega)]
      have ha : decide (13 ≤ ((s.filter Char.isDigit).map digitVal).length)
          = true := by simpa using h13
      have hb : decide (((s.filter Char.isDigit).map digitVal).length ≤ 19)
          = true := by simpa using h19
      rw [ha, hb]
      simp
    · rw [if_pos (by simp only [Bool.or_eq_true, decide_eq_true_eq]; omega)]
      have hb : decide (((s.filter Char.isDigit).map digitVal).length ≤ 19)
          = false := by simpa using h19
      rw [hb]
      simp
  · rw [if_pos (by simp only [Bool.or_eq_true, decide_eq_true_eq]; omega)]
    have ha : decide (13 ≤ ((s.filter Char.isDigit).map digitVal).length)
        = false := by simpa using h13
    rw [ha]
    simp

/-- C6 counterexample: the validator rejects `"4532148803436467"` — its Luhn
total is 73, not a multiple of 10 — while the claim says it is accepted. -/
theorem validateCreditCard_counterexample :
    validateCreditCard "4532148803436467".data = false := by decide

/-- C6 (amended): the credit-card validator implements the Luhn rule exactly
as the specification words it (strip non-digits, digit count in `[13, 19]`,
doubling at odd indices from the right with a 9 subtraction, total ≡ 0
mod 10); however it rejects both `"4532148803436467"` (total 73) and
`"4532148803436468"` (total 74). -/
theorem validateCreditCard_luhn_amended :
    (∀ s, validateCreditCard s = luhnSpec s) ∧
    validateCreditCard "4532148803436467".data = false ∧
    validateCreditCard "4532148803436468".data = false :=
  ⟨validateCreditCard_eq_luhnSpec, by decide, by decide⟩

/-! ## Date-of-birth validation (C7) -/

theorem all_congr_fun {α : Type} {f g : α → Bool} (h : ∀ x, f x = g x) :
    ∀ (l : List α), l.all f = l.all g
  | [] => rfl
  | a :: l => by rw [List.all_cons, List.all_cons, h a, all_congr_fun h l]

/-- C7 counterexample: `"1950-1950-12"` has two parts of length 4, which the
claim says must be rejected, yet the validator accepts it (the first
length-4 part is used as the year and the second is never checked). -/
theorem validateDateOfBirth_counterexample :
    validateDateOfBirth "1950-1950-12".data = true ∧
    dobClaimSpec "1950-1950-12".data = false := by decide

/-- C7 (amended): the validator accepts iff splitting on `/` or `-` yields
exactly 3 parts, the **first** length-4 part parses as a year in
`[1900, 2025]` (reject when no part has length 4), and every part of length
≤ 2 parses as an integer in `[1, 31]`; parts of length 3, and length-4
parts after the first, are not range-checked. -/
theorem validateDateOfBirth_amended (s : List Char) :
    validateDateOfBirth s = dobCodeSpec s := by
  unfold validateDateOfBirth dobCodeSpec
  dsimp only
  by_cases hlen : (s.splitOnP (fun c => c = '/' || c = '-')).length = 3
  · rw [if_neg (fun hne => hne hlen)]
    have hl3 : decide ((s.splitOnP (fun c => c = '/' || c = '-')).length = 3)
        = true := by simpa using hlen
    rw [hl3, Bool.true_and]
    cases hf : (s.splitOnP (fun c => c = '/' || c = '-')).find?
        (fun part => part.length = 4) with
    | none => simp
    | some yearPart =>
      dsimp only
      cases hp : pyInt yearPart with
      | none => simp
      | some year =>
        dsimp only
        by_cases hr : (decide (year < 1900) || decide (year > 2025)) = true
        · rw [if_pos hr]
          have hy : (decide (1900 ≤ year) && decide (year ≤ 2025)) = false := by
            simp only [Bool.or_eq_true, decide_eq_true_eq] at hr
            simp only [Bool.and_eq_false_iff, decide_eq_false_iff_not]
            omega
          rw [hy, Bool.false_and]
        · rw [if_neg hr]
          have hy : (decide (1900 ≤ year) && decide (year ≤ 2025)) = true := by
            simp only [Bool.or_eq_true, decide_eq_true_eq, not_or] at hr
            simp only [Bool.and_eq_true, decide_eq_true_eq]
            omega
          rw [hy, Bool.true_and]
          refine all_congr_fun (fun p => ?_) _
          by_cases hl : p.length ≤ 2
          · rw [if_pos hl]
            have h2 : decide (2 < p.length) = false := by
              simp only [decide_eq_false_iff_not, Nat.not_lt]
              exact hl
            rw [h2, Bool.false_or]
            cases hpi : pyInt p with
            | none => rfl
            | some v =>
              by_cases h1 : 1 ≤ v <;> by_cases h31 : v ≤ 31 <;>
                (simp [h1, h31]; try omega)
          · rw [if_neg hl]
            have h2 : decide (2 < p.length) = true := by
              simp only [decide_eq_true_eq]
              omega
            rw [h2, Bool.true_or]
  · rw [if_pos hlen]
    have hl3 : decide ((s.splitOnP (fun c => c = '/' || c = '-')).length = 3)
        = false := by simpa using hlen
    rw [hl3]
    simp

/-! ## Masking-configuration frame properties (C10) -/

theorem find?_setStrategy_map_self (t : PIIType) (s : MaskingStrategy) :
    ∀ (cfg : MaskingConfig), cfg.any (fun p => p.1 = t) = true →
      (cfg.map (fun p => if p.1 = t then (t, s) else p)).find? (fun p => p.1 = t)
        = some (t, s)
  | [], h => by simp at h
  | p :: rest, h => by
    rw [List.map_cons]
    by_cases hp : p.1 = t
    · rw [if_pos hp, List.find?_cons_of_pos _ (by simp)]
    · rw [if_neg hp, List.find?_cons_of_neg _ (by simpa using hp)]
      apply find?_setStrategy_map_self t s rest
      simp only [List.any_cons, Bool.or_eq_true] at h
      rcases h with h | h
      · exact absurd (by simpa using h) hp
      · exact h

theorem getStrategy_setStrategy_self (cfg : MaskingConfig) (t : PIIType)
    (s : MaskingStrategy) : (cfg.setStrategy t s).getStrategy t = s := by
  unfold MaskingConfig.setStrategy MaskingConfig.getStrategy
  by_cases hany : cfg.any (fun p => p.1 = t) = true
  · rw [if_pos hany, find?_setStrategy_map_self t s cfg hany]
  · rw [if_neg hany, List.find?_append]
    have hnone : cfg.find? (fun p => p.1 = t) = none := by
      rw [List.find?_eq_none]
      intro x hx hpred
      exact hany (List.any_eq_true.mpr ⟨x, hx, hpred⟩)
    rw [hnone]
    simp

theorem find?_setStrategy_map_other (t u : PIIType) (s : MaskingStrategy)
    (h : u ≠ t) :
    ∀ (cfg : MaskingConfig),
      (cfg.map (fun p => if p.1 = t then (t, s) else p)).find? (fun p => p.1 = u)
        = cfg.find? (fun p => p.1 = u)
  | [] => rfl
  | p :: rest => by
    rw [List.map_cons]
    by_cases hp : p.1 = t
    · have h1 : ¬((t, s).1 = u) := fun hh => h (hh ▸ rfl)
      have h2 : ¬(p.1 = u) := fun hh => h (by rw [← hh, hp])
      rw [if_pos hp, List.find?_cons_of_neg _ (by simpa using h1),
        List.find?_cons_of_neg _ (by simpa using h2)]
      exact find?_setStrategy_map_other t u s h rest
    · rw [if_neg hp]
      by_cases hpu : p.1 = u
      · rw [List.find?_cons_of_pos _ (by simpa using hpu),
          List.find?_cons_of_pos _ (by simpa using hpu)]
      · rw [List.find?_cons_of_neg _ (by simpa using hpu),
          List.find?_cons_of_neg _ (by simpa using hpu)]
        exact find?_setStrategy_map_other t u s h rest

theorem getStrategy_setStrategy_other (cfg : MaskingConfig) (t : PIIType)
    (s : MaskingStrategy) (u : PIIType) (h : u ≠ t) :
    (cfg.setStrategy t s).getStrategy u = cfg.getStrategy u := by
  unfold MaskingConfig.setStrategy MaskingConfig.getStrategy
  by_cases hany : cfg.any (fun p => p.1 = t) = true
  · rw [if_pos hany, find?_setStrategy_map_other t u s h cfg]
  · rw [if_neg hany, List.find?_append]
    have hlast : (([(t, s)] : MaskingConfig).find? (fun p => p.1 = u)) = none := by
      rw [List.find?_eq_none]
      intro x hx
      rw [List.mem_singleton] at hx
      subst hx
      simp only [decide_eq_true_eq]
      exact fun hh => h hh.symm
    rw [hlast]
    cases cfg.find? (fun p => p.1 = u) <;> simp

theorem getStrategy_setAll_foldl (s : MaskingStrategy) :
    ∀ (ts : List PIIType) (cfg : MaskingConfig) (t : PIIType),
      ((ts.foldl (fun c u => c.setStrategy u s) cfg).getStrategy t)
        = if t ∈ ts then s else cfg.getStrategy t
  | [], cfg, t => by simp
  | u :: rest, cfg, t => by
    rw [List.foldl_cons, getStrategy_setAll_foldl s rest _ t]
    by_cases hr : t ∈ rest
    · simp [hr, List.mem_cons]
    · by_cases hu : t = u
      · subst hu
        simp [hr, getStrategy_setStrategy_self]
      · rw [if_neg hr, getStrategy_setStrategy_other cfg u s t hu,
          if_neg (by simp [hu, hr])]

theorem setAll_getStrategy (cfg : MaskingConfig) (s : MaskingStrategy)
    (t : PIIType) : (cfg.setAllStrategies s).getStrategy t = s := by
  unfold MaskingConfig.setAllStrategies
  rw [getStrategy_setAll_foldl]
  have ht : t ∈ PIITypeList := by cases t <;> simp [PIITypeList]
  rw [if_pos ht]

/-- C10: `set_masking_strategy(t, s)` changes only the entry for `t` — every
other type's strategy reads back unchanged — and
`set_all_masking_strategies(s)` makes every member of `PIIType` read back
`s`. -/
theorem setStrategy_frame (d : Detector) (t : PIIType) (s : MaskingStrategy) :
    (∀ u, u ≠ t →
      (d.setMaskingStrategy t s).maskingConfig.getStrategy u
        = d.maskingConfig.getStrategy u) ∧
    (∀ u, (d.setAllMaskingStrategies s).maskingConfig.getStrategy u = s) := by
  constructor
  · intro u h
    show (d.maskingConfig.setStrategy t s).getStrategy u = d.maskingConfig.getStrategy u
    exact getStrategy_setStrategy_other d.maskingConfig t s u h
  · intro u
    simp only [Detector.setAllMaskingStrategies]
    exact setAll_getStrategy d.maskingConfig s u

/-- Witness for C10 at concrete types and strategies. -/
theorem setStrategy_frame_witness :
    PIIType.SSN ≠ PIIType.EMAIL ∧
    ((Detector.init true true).setMaskingStrategy .EMAIL .HASH).maskingConfig.getStrategy .SSN
      = (Detector.init true true).maskingConfig.getStrategy .SSN ∧
    ((Detector.init true true).setAllMaskingStrategies .HASH).maskingConfig.getStrategy .EMAIL
      = .HASH :=
  ⟨by decide,
   (setStrategy_frame (Detector.init true true) .EMAIL .HASH).1 .SSN (by decide),
   (setStrategy_frame (Detector.init true true) .EMAIL .HASH).2 .EMAIL⟩

/-! ## Determinism / idempotence (C3) -/

theorem mask_state_of_ne_tokenize {sha256hex : List Char → List Char}
    {mk : Masker} {v : List Char} {t : PIIType} {s? : Option MaskingStrategy}
    (h : s?.getD mk.defaultStrategy ≠ .TOKENIZE) :
    (mk.mask sha256hex v t s?).2 = mk := by
  unfold Masker.mask
  dsimp only
  cases hs : s?.getD mk.defaultStrategy with
  | FULL => rfl
  | PARTIAL => rfl
  | REDACT => rfl
  | HASH => rfl
  | TOKENIZE => exact absurd hs h

theorem patternSpanLoop_state (sha256hex : List Char → List Char)
    (d : Detector) (text : List Char) (pd : PIIPattern)
    (hcfg : d.maskingConfig.getStrategy pd.piiType ≠ .TOKENIZE)
    (spans : List (Nat × Nat)) (acc : List PIIMatch × Masker) :
    (patternSpanLoop sha256hex d text pd spans acc).2 = acc.2 := by
  rw [patternSpanLoop]
  refine foldl_inv _ (fun (b : List PIIMatch × Masker) => b.2 = acc.2) ?_ spans acc rfl
  intro b sp hb
  dsimp only
  split <;> try split
  all_goals
    first
      | exact hb
      | (rw [@mask_state_of_ne_tokenize sha256hex b.2 (slice text sp.1 sp.2)
            pd.piiType (some (d.maskingConfig.getStrategy pd.piiType)) hcfg]
         exact hb)

theorem detectPatternBased_state (sha256hex : List Char → List Char)
    (d : Detector) (text : List Char) (piiTypes : Option (List PIIType))
    (spans : Nat → List (Nat × Nat))
    (hcfg : ∀ t, d.maskingConfig.getStrategy t ≠ .TOKENIZE) :
    (detectPatternBased sha256hex d text piiTypes spans).2 = d.masker := by
  rw [detectPatternBased]
  refine foldl_inv _ (fun (b : List PIIMatch × Masker) => b.2 = d.masker) ?_ _ _ rfl
  intro b ip hb
  split
  · exact hb
  · rw [patternSpanLoop_state sha256hex d text ip.2 (hcfg ip.2.piiType) (spans ip.1) b]
    exact hb

theorem nameCandidate_state (sha256hex : List Char → List Char) (d : Detector)
    (text fullName : List Char) (c1 c2 : ℚ) (mk : Masker)
    (hdef : mk.defaultStrategy ≠ .TOKENIZE) :
    (nameCandidate sha256hex d text fullName c1 c2 mk).2 = mk := by
  rw [nameCandidate]
  split
  · dsimp only
    exact mask_state_of_ne_tokenize hdef
  · rfl

theorem detectNamesGo_state (sha256hex : List Char → List Char) (d : Detector)
    (text : List Char) (words : List (List Char)) :
    ∀ (fuel i : Nat) (mk : Masker), mk.defaultStrategy ≠ .TOKENIZE →
      (detectNamesGo sha256hex d text words fuel i mk).2 = mk := by
  intro fuel
  induction fuel with
  | zero =>
    intro i mk _
    rfl
  | succ fuel ih =>
    intro i mk hdef
    rw [detectNamesGo]
    split
    · dsimp only
      split
      · split
        · rw [nameCandidate_state sha256hex d text _ _ _ mk hdef]
          exact ih _ mk hdef
        · exact ih _ mk hdef
      · split
        · split
          · rw [nameCandidate_state sha256hex d text _ _ _ mk hdef]
            exact ih _ mk hdef
          · exact ih _ mk hdef
        · exact ih _ mk hdef
    · rfl

theorem detectNames_state (sha256hex : List Char → List Char) (d : Detector)
    (text : List Char) (mk : Masker) (hdef : mk.defaultStrategy ≠ .TOKENIZE) :
    (detectNames sha256hex d text mk).2 = mk :=
  detectNamesGo_state sha256hex d text _ _ 0 mk hdef

theorem detectAddresses_state (sha256hex : List Char → List Char) (d : Detector)
    (text : List Char) (spans : List (Nat × Nat)) (mk : Masker)
    (hdef : mk.defaultStrategy ≠ .TOKENIZE) :
    (detectAddresses sha256hex d text spans mk).2 = mk := by
  rw [detectAddresses]
  refine foldl_inv _ (fun (b : List PIIMatch × Masker) => b.2 = mk) ?_ spans _ rfl
  intro b sp hb
  dsimp only
  rw [hb]
  exact mask_state_of_ne_tokenize hdef

theorem detectAllCandidates_state (sha256hex : List Char → List Char)
    (d : Detector) (text : List Char) (types : Option (List PIIType))
    (pSpans : Nat → List (Nat × Nat)) (aSpans : List (Nat × Nat))
    (hdef : d.masker.defaultStrategy ≠ .TOKENIZE)
    (hcfg : ∀ t, d.maskingConfig.getStrategy t ≠ .TOKENIZE) :
    (detectAllCandidates sha256hex d text types pSpans aSpans).2 = d.masker := by
  unfold detectAllCandidates
  dsimp only
  have hp := detectPatternBased_state sha256hex d text types pSpans hcfg
  by_cases hta : typeEnabled types PIIType.ADDRESS = true
  · rw [if_pos hta]
    by_cases htn : typeEnabled types PIIType.PERSON_NAME = true
    · rw [if_pos htn, hp, detectNames_state sha256hex d text d.masker hdef]
      exact detectAddresses_state sha256hex d text aSpans d.masker hdef
    · rw [if_neg htn]
      dsimp only
      rw [hp]
      exact detectAddresses_state sha256hex d text aSpans d.masker hdef
  · rw [if_neg hta]
    dsimp only
    by_cases htn : typeEnabled types PIIType.PERSON_NAME = true
    · rw [if_pos htn, hp]
      exact detectNames_state sha256hex d text d.masker hdef
    · rw [if_neg htn]
      exact hp

theorem detectAll_state (sha256hex : List Char → List Char) (d : Detector)
    (text : List Char) (thr : ℚ) (types : Option (List PIIType))
    (pSpans : Nat → List (Nat × Nat)) (aSpans : List (Nat × Nat))
    (hdef : d.masker.defaultStrategy ≠ .TOKENIZE)
    (hcfg : ∀ t, d.maskingConfig.getStrategy t ≠ .TOKENIZE) :
    (detectAll sha256hex d text thr types pSpans aSpans).2 = d := by
  unfold detectAll
  dsimp only
  rw [detectAllCandidates_state sha256hex d text types pSpans aSpans hdef hcfg]

theorem resolveOverlaps_singleton (m : PIIMatch) : resolveOverlaps [m] = [m] := by
  unfold resolveOverlaps
  rw [if_neg (by simp)]
  dsimp only
  rw [List.mergeSort_singleton, List.foldl_cons, List.foldl_nil,
    show resolveInsert m [] = [m] from rfl, List.mergeSort_singleton]

theorem tokenizeMatch_conf_dec (k : Nat) :
    decide ((0.7 : ℚ) ≤ (tokenizeMatch k).confidence) = true := by
  have hC : adjustConfidence 0.99 false true true = 0.99 := by
    show max 0 (min 1 0.99) = (0.99 : ℚ)
    rw [min_eq_right (by norm_num), max_eq_right (by norm_num)]
  show decide ((0.7 : ℚ) ≤ adjustConfidence 0.99 false true true) = true
  rw [hC]
  exact decide_eq_true (by norm_num)

theorem tokenizeRun1_eq : tokenizeRun1
    = ([tokenizeMatch 1], { tokenizeDetector with masker := ⟨.PARTIAL, 1⟩ }) := by
  have hcand1 : detectAllCandidates (fun _ => []) tokenizeDetector
      "john@example.com".data none emailSpan []
      = ([tokenizeMatch 1], ⟨.PARTIAL, 1⟩) := rfl
  unfold tokenizeRun1 detectAll
  dsimp only
  rw [hcand1]
  dsimp only
  rw [List.filter_cons, if_pos (tokenizeMatch_conf_dec 1), List.filter_nil,
    resolveOverlaps_singleton]

theorem tokenizeRun2_eq : tokenizeRun2
    = ([tokenizeMatch 2], { tokenizeDetector with masker := ⟨.PARTIAL, 2⟩ }) := by
  have hcand2 : detectAllCandidates (fun _ => [])
      { tokenizeDetector with masker := ⟨.PARTIAL, 1⟩ }
      "john@example.com".data none emailSpan []
      = ([tokenizeMatch 2], ⟨.PARTIAL, 2⟩) := rfl
  unfold tokenizeRun2
  rw [show tokenizeRun1.2 = { tokenizeDetector with masker := (⟨.PARTIAL, 1⟩ : Masker) }
    from by rw [tokenizeRun1_eq]]
  unfold detectAll
  dsimp only
  rw [hcand2]
  dsimp only
  rw [List.filter_cons, if_pos (tokenizeMatch_conf_dec 2), List.filter_nil,
    resolveOverlaps_singleton]

/-- Witness for C2 at a concrete input: the email match of the tokenize
example, whose recorded span `[0, 16)` slices the text back to its value. -/
theorem detectAll_span_eq_value_witness :
    slice "john@example.com".data (tokenizeMatch 1).start (tokenizeMatch 1).stop
      = (tokenizeMatch 1).value :=
  detectAll_span_eq_value (fun _ => []) tokenizeDetector "john@example.com".data
    0.7 none emailSpan [] (tokenizeMatch 1)
    (by rw [show detectAll (fun _ => []) tokenizeDetector "john@example.com".data
          0.7 none emailSpan [] = tokenizeRun1 from rfl, tokenizeRun1_eq]
        simp)

/-- C3 counterexample: with the EMAIL strategy switched to TOKENIZE via
`set_masking_strategy`, two successive `detect_all` calls on the same
detector instance with identical arguments return different sequences — the
masker's token counter advances, so the `masked_value` fields differ
(`[EMAIL_TOKEN_0001]` vs `[EMAIL_TOKEN_0002]`). -/
theorem detectAll_tokenize_counterexample : tokenizeRun1.1 ≠ tokenizeRun2.1 := by
  intro h
  rw [show tokenizeRun1.1 = [tokenizeMatch 1] from by rw [tokenizeRun1_eq],
    show tokenizeRun2.1 = [tokenizeMatch 2] from by rw [tokenizeRun2_eq]] at h
  simp only [List.cons.injEq, and_true] at h
  have hm := congrArg PIIMatch.maskedValue h
  simp only [tokenizeMatch] at hm
  exact absurd hm (by decide)

/-- C3 (amended): `detect_all` is deterministic and idempotent for every
configuration in which no PII type's strategy is TOKENIZE (and the masker's
default stays non-TOKENIZE, as constructed): the detector state is
unchanged, so an immediately repeated call with identical arguments returns
the identical result, `masked_value` fields included. -/
theorem detectAll_idempotent_no_tokenize (sha256hex : List Char → List Char)
    (d : Detector) (text : List Char) (thr : ℚ) (types : Option (List PIIType))
    (pSpans : Nat → List (Nat × Nat)) (aSpans : List (Nat × Nat))
    (hdef : d.masker.defaultStrategy ≠ .TOKENIZE)
    (hcfg : ∀ t, d.maskingConfig.getStrategy t ≠ .TOKENIZE) :
    (detectAll sha256hex d text thr types pSpans aSpans).2 = d ∧
    detectAll sha256hex (detectAll sha256hex d text thr types pSpans aSpans).2
        text thr types pSpans aSpans
      = detectAll sha256hex d text thr types pSpans aSpans := by
  have h := detectAll_state sha256hex d text thr types pSpans aSpans hdef hcfg
  exact ⟨h, by rw [h]⟩

/-- Witness for C3 (amended) on a fresh default detector. -/
theorem detectAll_idempotent_no_tokenize_witness :
    (Detector.init true true).masker.defaultStrategy ≠ .TOKENIZE ∧
    (∀ t, (Detector.init true true).maskingConfig.getStrategy t ≠ .TOKENIZE) ∧
    ((detectAll (fun _ => []) (Detector.init true true) "a@b.co".data 0.7 none
        (fun _ => []) []).2 = Detector.init true true ∧
      detectAll (fun _ => [])
          (detectAll (fun _ => []) (Detector.init true true) "a@b.co".data 0.7
            none (fun _ => []) []).2 "a@b.co".data 0.7 none (fun _ => []) []
        = detectAll (fun _ => []) (Detector.init true true) "a@b.co".data 0.7
            none (fun _ => []) []) :=
  ⟨by decide, fun t => by cases t <;> decide,
   detectAll_idempotent_no_tokenize (fun _ => []) (Detector.init true true)
     "a@b.co".data 0.7 none (fun _ => []) [] (by decide)
     (fun t => by cases t <;> decide)⟩

/-! ## Empty type filter (C9) -/

/-- C9: calling `detect_all` with an **empty** type-filter list leaves
pattern-based scanning unrestricted (an empty Python list is falsy, so the
skip test never fires — the scan equals the no-filter scan), while name and
address detection are skipped (they require membership in the supplied
list). -/
theorem detectAll_empty_type_filter (sha256hex : List Char → List Char)
    (d : Detector) (text : List Char) (thr : ℚ)
    (pSpans : Nat → List (Nat × Nat)) (aSpans : List (Nat × Nat)) :
    detectAll sha256hex d text thr (some []) pSpans aSpans
      = (resolveOverlaps
          (((detectPatternBased sha256hex d text none pSpans).1).filter
            (fun m => thr ≤ m.confidence)),
         { d with masker := (detectPatternBased sha256hex d text none pSpans).2 }) := by
  have hpb : detectPatternBased sha256hex d text (some []) pSpans
      = detectPatternBased sha256hex d text none pSpans := by
    unfold detectPatternBased
    apply List.foldl_ext
    intro acc ip _
    rw [show skipType (some []) ip.2.piiType = false from rfl,
      show skipType none ip.2.piiType = false from rfl]
  unfold detectAll detectAllCandidates
  dsimp only
  rw [show typeEnabled (some []) PIIType.PERSON_NAME = false from rfl,
    show typeEnabled (some []) PIIType.ADDRESS = false from rfl,
    if_neg Bool.false_ne_true, if_neg Bool.false_ne_true]
  dsimp only
  rw [hpb, List.append_nil, List.append_nil]


/-! ## C8: totality — the exception-aware pipeline never reaches an error -/

theorem ok_bind {α β : Type} (a : α) (f : α → Except String β) :
    (Except.ok a >>= f : Except String β) = f a := rfl

theorem pure_bind_ex {α β : Type} (a : α) (f : α → Except String β) :
    (pure a >>= f : Except String β) = f a := rfl

theorem foldlM_eq_ok {α β : Type} (fE : β → α → Except String β) (f : β → α → β)
    (h : ∀ b a, fE b a = .ok (f b a)) (l : List α) (b : β) :
    l.foldlM fE b = .ok (l.foldl f b) := by
  induction l generalizing b with
  | nil => rfl
  | cons a t ih =>
    rw [List.foldlM_cons, h b a, ok_bind]
    exact ih (f b a)

theorem getE_eq_ok {α : Type} (xs : List α) (i : Nat) (h : i < xs.length) (dflt : α) :
    getE xs i = .ok (xs.getD i dflt) := by
  unfold getE
  rw [List.getD_eq_get?, List.get?_eq_get h]
  rfl

theorem not_ws_of_digit (c : Char) (h : c.isDigit = true) : isPyWs c = false := by
  revert h
  unfold isPyWs Char.isDigit
  by_cases h1 : c = ' ' <;> by_cases h2 : c = '\t' <;> by_cases h3 : c = '\n' <;>
    by_cases h4 : c = '\r' <;> by_cases h5 : c = '\x0b' <;> by_cases h6 : c = '\x0c' <;>
    simp [h1, h2, h3, h4, h5, h6]

theorem dropWhile_ws_of_digits (s : List Char) (h : s.all Char.isDigit = true) :
    s.dropWhile isPyWs = s := by
  cases s with
  | nil => rfl
  | cons c t =>
    have hc : c.isDigit = true := by
      simp only [List.all_cons, Bool.and_eq_true] at h
      exact h.1
    rw [List.dropWhile_cons, if_neg (by simp [not_ws_of_digit c hc])]

theorem stripWs_of_digits (s : List Char) (h : s.all Char.isDigit = true) :
    stripWs s = s := by
  unfold stripWs
  rw [dropWhile_ws_of_digits s h, dropWhile_ws_of_digits s.reverse (by simpa using h),
    List.reverse_reverse]

theorem pyInt_digits (s : List Char) (hne : s ≠ []) (hd : s.all Char.isDigit = true) :
    pyInt s = some ((digitsToNat s : Int)) := by
  unfold pyInt
  rw [stripWs_of_digits s hd]
  cases s with
  | nil => exact absurd rfl hne
  | cons c t =>
    have hc : c.isDigit = true := by
      simp only [List.all_cons, Bool.and_eq_true] at hd
      exact hd.1
    split
    · next rest heq =>
      exfalso
      injection heq with h1 _
      rw [h1] at hc
      exact absurd hc (by decide)
    · next rest heq =>
      exfalso
      injection heq with h1 _
      rw [h1] at hc
      exact absurd hc (by decide)
    · next =>
      rw [if_pos (by simp [hd])]

theorem pyIntE_digits (s : List Char) (hne : s ≠ []) (hd : s.all Char.isDigit = true) :
    pyIntE s = .ok ((digitsToNat s : Int)) := by
  unfold pyIntE
  rw [pyInt_digits s hne hd]

theorem validateSsnE_eq (ssn : List Char) : validateSsnE ssn = .ok (validateSsn ssn) := by
  unfold validateSsnE validateSsn
  dsimp only
  by_cases hg : (decide ((removeWsDash ssn).length ≠ 9)
      || !(removeWsDash ssn).all Char.isDigit) = true
  · rw [if_pos hg, if_pos hg]
  · rw [if_neg hg, if_neg hg]
    have hg' : (removeWsDash ssn).length = 9 ∧
        (removeWsDash ssn).all Char.isDigit = true := by
      simp only [Bool.or_eq_true, decide_eq_true_eq, Bool.not_eq_true',
        Bool.not_eq_false, not_or, not_not] at hg
      exact ⟨hg.1, hg.2⟩
    obtain ⟨hlen, hall⟩ := hg'
    have hallmem := List.all_eq_true.mp hall
    have hall3 : ((removeWsDash ssn).take 3).all Char.isDigit = true :=
      List.all_eq_true.mpr fun x hx => hallmem x (List.take_subset _ _ hx)
    have hall5 : (slice (removeWsDash ssn) 3 5).all Char.isDigit = true :=
      List.all_eq_true.mpr fun x hx =>
        hallmem x (List.drop_subset _ _ (List.take_subset _ _ hx))
    have hall9 : ((removeWsDash ssn).drop 5).all Char.isDigit = true :=
      List.all_eq_true.mpr fun x hx => hallmem x (List.drop_subset _ _ hx)
    have hne3 : (removeWsDash ssn).take 3 ≠ [] :=
      List.ne_nil_of_length_pos (by rw [List.length_take, hlen]; decide)
    have hne5 : slice (removeWsDash ssn) 3 5 ≠ [] :=
      List.ne_nil_of_length_pos
        (by unfold slice; rw [List.length_take, List.length_drop, hlen]; decide)
    have hne9 : (removeWsDash ssn).drop 5 ≠ [] :=
      List.ne_nil_of_length_pos (by rw [List.length_drop, hlen]; decide)
    rw [pyIntE_digits _ hne3 hall3, ok_bind, pyIntE_digits _ hne5 hall5, ok_bind,
      pyIntE_digits _ hne9 hall9, ok_bind,
      pyInt_digits _ hne3 hall3, pyInt_digits _ hne5 hall5, pyInt_digits _ hne9 hall9]
    simp only [Option.getD_some]
    repeat' split
    all_goals rfl

theorem validatePhoneE_eq (phone : List Char) :
    validatePhoneE phone = .ok (validatePhone phone) := by
  unfold validatePhoneE validatePhone
  dsimp only
  by_cases h10 : (phone.filter Char.isDigit).length = 10
  · rw [if_pos h10, if_pos h10]
    have hall : ((phone.filter Char.isDigit).take 3).all Char.isDigit = true :=
      List.all_eq_true.mpr fun x hx =>
        List.of_mem_filter (List.take_subset _ _ hx)
    have hne : (phone.filter Char.isDigit).take 3 ≠ [] :=
      List.ne_nil_of_length_pos (by rw [List.length_take, h10]; decide)
    rw [pyIntE_digits _ hne hall, ok_bind, pyInt_digits _ hne hall]
    simp only [Option.getD_some]
    split
    · rfl
    · rfl
  · rw [if_neg h10, if_neg h10]
    split
    · rfl
    · rfl

theorem validateMatchE_eq (value : List Char) (t : PIIType) :
    validateMatchE value t = .ok (validateMatch value t) := by
  cases t
  all_goals
    first
      | rfl
      | exact validateSsnE_eq value
      | exact validatePhoneE_eq value

theorem take_one_getD (u : List Char) (h : 0 < u.length) :
    u.take 1 = [u.getD 0 ' '] := by
  cases u with
  | nil => simp at h
  | cons c t => rfl

theorem maskEmailE_eq (email : List Char) : maskEmailE email = .ok (maskEmail email) := by
  unfold maskEmailE maskEmail
  cases hs : email.splitOnP (· = '@') with
  | nil => rfl
  | cons u rest =>
    cases rest with
    | nil => rfl
    | cons dm rest2 =>
      cases rest2 with
      | cons _ _ => rfl
      | nil =>
        dsimp only
        by_cases h2 : u.length ≤ 2
        · rw [if_pos h2, if_pos h2]
        · rw [if_neg h2, if_neg h2]
          have hu : 0 < u.length := by omega
          by_cases h4 : u.length ≤ 4
          · rw [if_pos h4, if_pos h4]
            rw [getE_eq_ok u 0 hu ' ', ok_bind, take_one_getD u hu]
          · rw [if_neg h4, if_neg h4]
            rw [getE_eq_ok u 0 hu ' ', ok_bind,
              getE_eq_ok u (u.length - 1) (by omega) ' ', ok_bind,
              take_one_getD u hu]
            have hlast : u.getLastD ' ' = u.getD (u.length - 1) ' ' := by
              rw [List.getLastD_eq_getLast?, List.getLast?_eq_get?, List.getD_eq_get?]
            rw [hlast]

/-- The accumulator step of `_mask_name`, shared by both presentations. -/
def maskNameStep (acc : List (List Char)) (part : List Char) : List (List Char) :=
  if part.length > 0 then acc ++ [(part.take 1).map Char.toUpper ++ "***".data]
  else acc

theorem maskName_foldl (parts : List (List Char)) : ∀ acc : List (List Char),
    parts.foldl maskNameStep acc
      = acc ++ parts.filterMap (fun part =>
          if part.length > 0 then
            some ((part.take 1).map Char.toUpper ++ "***".data)
          else none) := by
  induction parts with
  | nil => intro acc; simp
  | cons p ps ih =>
    intro acc
    rw [List.foldl_cons, List.filterMap_cons, ih]
    by_cases hp : p.length > 0
    · simp [maskNameStep, hp]
    · simp [maskNameStep, hp]

theorem maskNameE_eq (name : List Char) : maskNameE name = .ok (maskName name) := by
  unfold maskNameE maskName
  dsimp only
  by_cases hp : (pySplitWs name).length = 0
  · rw [if_pos hp, if_pos hp]
  · rw [if_neg hp, if_neg hp]
    have hbody : ∀ (b : List (List Char)) (p : List Char),
        (if p.length > 0 then do
            let c0 ← getE p 0
            pure (b ++ [c0.toUpper :: "***".data])
          else pure b : Except String (List (List Char)))
          = .ok (maskNameStep b p) := by
      intro b p
      cases p with
      | nil =>
        have hneg : ¬ ([] : List Char).length > 0 := by simp
        simp only [maskNameStep]
        rw [if_neg hneg, if_neg hneg]
        rfl
      | cons c t =>
        have hpos : (c :: t).length > 0 := by simp
        simp only [maskNameStep]
        rw [if_pos hpos, if_pos hpos]
        rfl
    rw [foldlM_eq_ok _ maskNameStep hbody (pySplitWs name) [], ok_bind,
      maskName_foldl]
    rfl

theorem maskPartialDispatchE_eq (value : List Char) (t : PIIType) :
    maskPartialDispatchE value t = .ok (maskPartialDispatch value t) := by
  cases t
  all_goals
    first
      | rfl
      | exact maskEmailE_eq value
      | exact maskNameE_eq value

theorem maskE_eq (sha256hex : List Char → List Char) (mk : Masker)
    (value : List Char) (t : PIIType) (s? : Option MaskingStrategy) :
    mk.maskE sha256hex value t s? = .ok (mk.mask sha256hex value t s?) := by
  unfold Masker.maskE Masker.mask
  dsimp only
  cases hs : s?.getD mk.defaultStrategy
  all_goals
    first
      | rfl
      | (rw [maskPartialDispatchE_eq value t, ok_bind])

theorem patternSpanLoopE_eq (sha256hex : List Char → List Char) (d : Detector)
    (text : List Char) (pd : PIIPattern) (spans : List (Nat × Nat))
    (acc : List PIIMatch × Masker) :
    patternSpanLoopE sha256hex d text pd spans acc
      = .ok (patternSpanLoop sha256hex d text pd spans acc) := by
  apply foldlM_eq_ok
  intro b sp
  dsimp only
  split
  · rw [validateMatchE_eq, ok_bind]
    split
    · rfl
    · rw [maskE_eq, ok_bind]
      rfl
  · rw [pure_bind_ex]
    split
    · rfl
    · rw [maskE_eq, ok_bind]
      rfl

theorem detectPatternBasedE_eq (sha256hex : List Char → List Char) (d : Detector)
    (text : List Char) (piiTypes : Option (List PIIType))
    (spans : Nat → List (Nat × Nat)) :
    detectPatternBasedE sha256hex d text piiTypes spans
      = .ok (detectPatternBased sha256hex d text piiTypes spans) := by
  apply foldlM_eq_ok
  intro b ip
  dsimp only
  split
  · rfl
  · exact patternSpanLoopE_eq sha256hex d text ip.2 (spans ip.1) b

theorem nameCandidateE_eq (sha256hex : List Char → List Char) (d : Detector)
    (text fullName : List Char) (confCtx confNoCtx : ℚ) (mk : Masker) :
    nameCandidateE sha256hex d text fullName confCtx confNoCtx mk
      = .ok (nameCandidate sha256hex d text fullName confCtx confNoCtx mk) := by
  unfold nameCandidateE nameCandidate
  cases hf : strFind text fullName with
  | none => rfl
  | some sp =>
    dsimp only
    rw [maskE_eq, ok_bind]

theorem extractNameSequenceGoE_eq (words : List (List Char)) (si : Nat) :
    ∀ fuel i, extractNameSequenceGoE words si fuel i
      = .ok (extractNameSequenceGo words si fuel i) := by
  intro fuel
  induction fuel with
  | zero => intro i; rfl
  | succ n ih =>
    intro i
    simp only [extractNameSequenceGoE, extractNameSequenceGo]
    split
    · next hc =>
      have hlt : i < words.length := by
        simp only [Bool.and_eq_true, decide_eq_true_eq] at hc
        exact hc.1
      rw [getE_eq_ok words i hlt [], ok_bind]
      split
      · rw [ih (i + 1), ok_bind]
      · rfl
    · rfl

theorem extractNameSequenceE_eq (words : List (List Char)) (si : Nat)
    (h : si < words.length) :
    extractNameSequenceE words si = .ok (extractNameSequence words si) := by
  unfold extractNameSequenceE extractNameSequence
  rw [getE_eq_ok words si h [], ok_bind, extractNameSequenceGoE_eq words si 3 (si + 1),
    ok_bind]

theorem detectNamesGoE_eq (sha256hex : List Char → List Char) (d : Detector)
    (text : List Char) (words : List (List Char)) :
    ∀ fuel i mk, detectNamesGoE sha256hex d text words fuel i mk
      = .ok (detectNamesGo sha256hex d text words fuel i mk) := by
  intro fuel
  induction fuel with
  | zero => intro i mk; rfl
  | succ n ih =>
    intro i mk
    simp only [detectNamesGoE, detectNamesGo]
    split
    · next hi =>
      rw [getE_eq_ok words i hi [], ok_bind]
      split
      · rw [extractNameSequenceE_eq words i hi, ok_bind]
        split
        · rw [nameCandidateE_eq, ok_bind, ih, ok_bind]
        · rw [pure_bind_ex, ih, ok_bind]
      · split
        · next hc =>
          have hlt : i + 1 < words.length := by
            simp only [Bool.and_eq_true, decide_eq_true_eq] at hc
            exact hc.2
          rw [getE_eq_ok words (i + 1) hlt [], ok_bind]
          split
          · rw [nameCandidateE_eq, ok_bind, ih, ok_bind]
          · rw [pure_bind_ex, ih, ok_bind]
        · exact ih (i + 1) mk
    · rfl

theorem detectNamesE_eq (sha256hex : List Char → List Char) (d : Detector)
    (text : List Char) (mk : Masker) :
    detectNamesE sha256hex d text mk = .ok (detectNames sha256hex d text mk) := by
  unfold detectNamesE detectNames
  exact detectNamesGoE_eq sha256hex d text (pySplitWs text) (pySplitWs text).length 0 mk

theorem detectAddressesE_eq (sha256hex : List Char → List Char) (d : Detector)
    (text : List Char) (spans : List (Nat × Nat)) (mk : Masker) :
    detectAddressesE sha256hex d text spans mk
      = .ok (detectAddresses sha256hex d text spans mk) := by
  apply foldlM_eq_ok
  intro b sp
  dsimp only
  rw [maskE_eq, ok_bind]
  rfl

theorem detectAllCandidatesE_eq (sha256hex : List Char → List Char) (d : Detector)
    (text : List Char) (piiTypes : Option (List PIIType))
    (patternSpans : Nat → List (Nat × Nat)) (addressSpans : List (Nat × Nat)) :
    detectAllCandidatesE sha256hex d text piiTypes patternSpans addressSpans
      = .ok (detectAllCandidates sha256hex d text piiTypes patternSpans addressSpans) := by
  unfold detectAllCandidatesE detectAllCandidates
  simp only [detectPatternBasedE_eq, detectNamesE_eq, detectAddressesE_eq,
    ok_bind, pure_bind_ex]
  split <;> split <;> rfl

theorem detectAllE_eq (sha256hex : List Char → List Char) (d : Detector)
    (text : List Char) (confidenceThreshold : ℚ) (piiTypes : Option (List PIIType))
    (patternSpans : Nat → List (Nat × Nat)) (addressSpans : List (Nat × Nat)) :
    detectAllE sha256hex d text confidenceThreshold piiTypes patternSpans addressSpans
      = .ok (detectAll sha256hex d text confidenceThreshold piiTypes patternSpans
          addressSpans) := by
  unfold detectAllE detectAll
  rw [detectAllCandidatesE_eq, ok_bind]

theorem maskTextE_eq (sha256hex : List Char → List Char) (d : Detector)
    (text : List Char) (ms? : Option (List PIIMatch)) (confidenceThreshold : ℚ)
    (patternSpans : Nat → List (Nat × Nat)) (addressSpans : List (Nat × Nat)) :
    maskTextE sha256hex d text ms? confidenceThreshold patternSpans addressSpans
      = .ok (maskText sha256hex d text ms? confidenceThreshold patternSpans
          addressSpans) := by
  unfold maskTextE maskText
  cases ms? with
  | some ms =>
    dsimp only
    rw [pure_bind_ex]
    split
    · rfl
    · rfl
  | none =>
    dsimp only
    rw [detectAllE_eq, ok_bind]
    split
    · rfl
    · rfl

/-- C8: totality of the core on arbitrary text — for every input (including
empty or adversarial text) and every threshold, the exception-aware
embeddings of `detect_all` and `mask_text` (whose `.error` branches model
Python's uncaught `IndexError`/`ValueError` sites) return `.ok` of the
total functions' results: no error branch is reachable. -/
theorem detectAll_maskText_total (sha256hex : List Char → List Char) (d : Detector)
    (text : List Char) (confidenceThreshold : ℚ) (piiTypes : Option (List PIIType))
    (patternSpans : Nat → List (Nat × Nat)) (addressSpans : List (Nat × Nat))
    (ms? : Option (List PIIMatch)) :
    detectAllE sha256hex d text confidenceThreshold piiTypes patternSpans addressSpans
      = .ok (detectAll sha256hex d text confidenceThreshold piiTypes patternSpans
          addressSpans)
    ∧ maskTextE sha256hex d text ms? confidenceThreshold patternSpans addressSpans
      = .ok (maskText sha256hex d text ms? confidenceThreshold patternSpans
          addressSpans) :=
  ⟨detectAllE_eq sha256hex d text confidenceThreshold piiTypes patternSpans addressSpans,
   maskTextE_eq sha256hex d text ms? confidenceThreshold patternSpans addressSpans⟩

end PiiShield
